import Mathlib

/-!
Verification development for the jellyfinorganizer media-organizer.

The TypeScript sources are shallowly embedded: strings are `List Char`,
JavaScript `undefined`/`null` and fallible results are `Option`, and the
awaited results of external services (TMDB, MusicBrainz, the LLM corrector,
the filesystem) are explicit parameters.  The dictionary used for wordlist
splitting (loaded at runtime from `20k.txt`) is passed as a parameter; the
empty list models the documented failure mode in which the wordlist is
unavailable and splitting is skipped.
-/

namespace JellyfinOrganizer

/-! ### JavaScript string primitives -/

/-- Whitespace as matched by JS `\s` / `trim` (ASCII subset used here). -/
def wsChar (c : Char) : Bool :=
  c = ' ' || c = '\t' || c = '\n' || c = '\r' || c = '\x0b' || c = '\x0c'

def jsTrimStart (s : List Char) : List Char := s.dropWhile (fun c => wsChar c)

def jsTrimEnd (s : List Char) : List Char :=
  (s.reverse.dropWhile (fun c => wsChar c)).reverse

/-- JS `String.prototype.trim`. -/
def jsTrim (s : List Char) : List Char := jsTrimEnd (jsTrimStart s)

/-- JS `String.prototype.toLowerCase` (ASCII). -/
def toLowerList (s : List Char) : List Char := s.map Char.toLower

/-- `hay.substring(i, i + pat.length) === pat`. -/
def subAt (hay pat : List Char) (i : Nat) : Bool :=
  decide ((hay.drop i).take pat.length = pat)

/-- First occurrence of `pat` in `hay` at a position `≥ i` (JS `indexOf` scan);
`fuel` only bounds the scan (the index advances by one each step). -/
def firstSubIdxFrom (hay pat : List Char) : Nat → Nat → Option Nat
  | 0, _ => none
  | fuel + 1, i =>
    if i + pat.length ≤ hay.length then
      if subAt hay pat i then some i else firstSubIdxFrom hay pat fuel (i + 1)
    else none

/-- JS `hay.indexOf(pat)` (`some i` instead of `i`, `none` instead of `-1`). -/
def idxOfSub (hay pat : List Char) : Option Nat :=
  firstSubIdxFrom hay pat (hay.length + 1) 0

def natToDigits (n : Nat) : List Char := Nat.toDigits 10 n

def intToDigits (i : Int) : List Char :=
  if i < 0 then '-' :: natToDigits i.natAbs else natToDigits i.natAbs

def digitsVal (s : List Char) : Nat :=
  s.foldl (fun a c => a * 10 + (c.toNat - '0'.toNat)) 0

/-- JS `parseInt(s, 10)`: skip leading whitespace, optional sign, then the
longest run of leading digits; `none` models `NaN`. -/
def jsParseInt (s : List Char) : Option Int :=
  match jsTrimStart s with
  | [] => none
  | c :: r =>
    if c = '-' then
      if r.takeWhile Char.isDigit = [] then none
      else some (-(digitsVal (r.takeWhile Char.isDigit) : Int))
    else if c = '+' then
      if r.takeWhile Char.isDigit = [] then none
      else some ((digitsVal (r.takeWhile Char.isDigit) : Int))
    else
      if (c :: r).takeWhile Char.isDigit = [] then none
      else some ((digitsVal ((c :: r).takeWhile Char.isDigit) : Int))

/-- JS `s.padStart(2, '0')`. -/
def padStart2 (s : List Char) : List Char :=
  if 2 ≤ s.length then s else List.replicate (2 - s.length) '0' ++ s

/-- Collapse whitespace runs to single spaces (JS `replace(/\s+/g, " ")`),
tracking whether the previous character belonged to a whitespace run. -/
def collapseWsAux : Bool → List Char → List Char
  | _, [] => []
  | prevWs, c :: r =>
    if wsChar c then
      (if prevWs then collapseWsAux true r else ' ' :: collapseWsAux true r)
    else c :: collapseWsAux false r

def collapseWs (s : List Char) : List Char := collapseWsAux false s

/-! ### Node `path` primitives (paths are `'/'`-joined, as produced here) -/

def lastIdxOfAux (s : List Char) (c : Char) (i : Nat) (acc : Option Nat) : Option Nat :=
  match s with
  | [] => acc
  | x :: r => lastIdxOfAux r c (i + 1) (if x = c then some i else acc)

def lastIdxOf (s : List Char) (c : Char) : Option Nat := lastIdxOfAux s c 0 none

def dirnameP (p : List Char) : List Char :=
  match lastIdxOf p '/' with
  | none => ['.']
  | some 0 => ['/']
  | some i => p.take i

def basenameP (p : List Char) : List Char :=
  match lastIdxOf p '/' with
  | none => p
  | some i => p.drop (i + 1)

/-- Node `extname`: from the last `'.'` of the basename, empty for a leading dot. -/
def extnameP (p : List Char) : List Char :=
  let b := basenameP p
  match lastIdxOf b '.' with
  | none => []
  | some 0 => []
  | some i => b.drop i

/-- Strip `suf` from the end of `s` when it is a proper suffix (Node
`basename(p, ext)` behaviour). -/
def stripSuffixIf (s suf : List Char) : List Char :=
  if suf ≠ [] ∧ suf ≠ s ∧ suf.length ≤ s.length ∧ s.drop (s.length - suf.length) = suf then
    s.take (s.length - suf.length)
  else s

/-- Node `basename(p, ext)`. -/
def basenameStripExtOf (p ext : List Char) : List Char := stripSuffixIf (basenameP p) ext

/-- Node `path.join(a, b)` for the well-formed components built here. -/
def pathJoin (a b : List Char) : List Char := a ++ '/' :: b

/-! ### `sanitizeName` (showOrganizer.ts / musicOrganizer.ts) and the inline
movie-folder sanitization (movieOrganizer.ts) -/

/-- The character class `[\/\?%\*:|"<>\.]` appearing in every sanitizer. -/
def bannedChar (c : Char) : Bool :=
  c = '/' || c = '?' || c = '%' || c = '*' || c = ':' || c = '|' ||
  c = '"' || c = '<' || c = '>' || c = '.'

/-- `showOrganizer.ts` / `musicOrganizer.ts` `sanitizeName`: replace each banned
character by `'_'`, strip trailing then leading whitespace, then `trim`. -/
def sanitizeName (s : List Char) : List Char :=
  jsTrim (jsTrimStart (jsTrimEnd (s.map (fun c => if bannedChar c then '_' else c))))

/-- The inline sanitization in `organizeMovies`
(`targetFolderName.replace(/[\/\?%\*:|"<>\.]/g, "_").trim()`). -/
def movieSanitize (s : List Char) : List Char :=
  jsTrim (s.map (fun c => if bannedChar c then '_' else c))

/-! ### Wordlist-guided splitting (`filenameParser.ts` `splitStringByWords`) -/

/-- The loaded wordlist stores lowercased words; membership is checked on the
lowercased segment. -/
def dictHas (dict : List (List Char)) (seg : List Char) : Bool :=
  dict.contains (toLowerList seg)

def slice (s : List Char) (i j : Nat) : List Char := (s.drop i).take (j - i)

/-- Largest `j` with `i < j ≤ hi` such that `block[i..j)` is a dictionary word
(the inner `for (let j = ...; j >= i + 1; j--)` loop). -/
def longestMatchEnd (dict : List (List Char)) (block : List Char) (i : Nat) :
    Nat → Option Nat
  | 0 => none
  | j + 1 =>
    if i + 1 ≤ j + 1 ∧ dictHas dict (slice block i (j + 1)) then some (j + 1)
    else longestMatchEnd dict block i j

/-- `canBreak`: some dictionary word starts at `pos`. -/
def canBreakAt (dict : List (List Char)) (block : List Char) (pos : Nat) : Bool :=
  (longestMatchEnd dict block pos block.length).isSome

/-- First `q' ≥ q` with `q' = block.length` or `canBreak q'` (the
`nonWordChunkEnd` loop). -/
def chunkEnd (dict : List (List Char)) (block : List Char) (q : Nat) : Nat :=
  if q < block.length then
    (if canBreakAt dict block q then q else chunkEnd dict block (q + 1))
  else q
termination_by block.length - q

/-- The per-block loop of `splitStringByWords`; `fuel` only bounds the loop
(each step advances the index by at least one). -/
def processBlockAux (dict : List (List Char)) (block : List Char) (i fuel : Nat) :
    List (List Char) :=
  match fuel with
  | 0 => []
  | fuel + 1 =>
    if i < block.length then
      match longestMatchEnd dict block i block.length with
      | some j => slice block i j :: processBlockAux dict block j fuel
      | none =>
        let e := chunkEnd dict block (i + 1)
        slice block i e :: processBlockAux dict block e fuel
    else []

def processBlock (dict : List (List Char)) (block : List Char) : List (List Char) :=
  processBlockAux dict block 0 (block.length + 1)

/-- `text.split(/(\s+)/)`: alternating maximal runs of whitespace/non-whitespace
(empty boundary elements of the JS split are dropped; they do not affect the
rejoined result). -/
def splitRuns : List Char → List (List Char)
  | [] => []
  | c :: r =>
    (c :: r.takeWhile (fun x => wsChar x == wsChar c)) ::
      splitRuns (r.dropWhile (fun x => wsChar x == wsChar c))
termination_by s => s.length
decreasing_by
  have h : ∀ (l : List Char) (p : Char → Bool), (l.dropWhile p).length ≤ l.length := by
    intro l p
    induction l with
    | nil => simp
    | cons a l ih =>
      by_cases hp : p a
      · simp only [List.dropWhile, hp]
        exact le_trans ih (by simp)
      · simp [List.dropWhile, hp]
  exact Nat.lt_succ_of_le (h _ _)

/-- `filenameParser.ts` `splitStringByWords`. -/
def splitStringByWords (dict : List (List Char)) (text : List Char) : List Char :=
  if text = [] ∨ dict = [] then text
  else
    let parts := splitRuns text
    let resultParts := parts.map (fun part =>
      if part.all (fun c => wsChar c) then part
      else List.intercalate [' '] (processBlock dict part))
    jsTrim (collapseWs resultParts.flatten)

/-! ### Movie filename parser (`filenameParser.ts` `parseMovieFilename`) -/

structure ParsedMovieInfo where
  title : List Char
  year : Option (List Char)
  originalFilename : List Char
deriving DecidableEq, Repr

/-- Insert a space at every `lowercase`-`UPPERCASE` boundary
(`replace(/([a-z])([A-Z])/g, "$1 $2")`). -/
def camelSplit : List Char → List Char
  | [] => []
  | [c] => [c]
  | a :: b :: r =>
    if a.isLower && b.isUpper then a :: ' ' :: camelSplit (b :: r)
    else a :: camelSplit (b :: r)

/-- Insert a space before the last letter of an acronym that is followed by a
lowercase letter (`replace(/([A-Z]+)([A-Z][a-z])/g, "$1 $2")`). -/
def acronymSplit : List Char → List Char
  | a :: b :: c :: r =>
    if a.isUpper && b.isUpper && c.isLower then a :: ' ' :: acronymSplit (b :: c :: r)
    else a :: acronymSplit (b :: c :: r)
  | s => s

/-- The shared cleaning pipeline of `parseMovieFilename`: strip extension,
separators to spaces, case-boundary splitting, optional wordlist splitting,
trim.  `dict = []` models wordlist splitting disabled/unavailable. -/
def cleanMovieName (dict : List (List Char)) (filename : List Char) : List Char :=
  let nameNoExt := basenameStripExtOf filename (extnameP filename)
  let s1 := nameNoExt.map (fun c => if c = '.' ∨ c = '_' then ' ' else c)
  let s2 := acronymSplit (camelSplit s1)
  let s3 := if dict = [] then s2 else splitStringByWords dict s2
  jsTrim s3

/-- A `(dddd)` group (exactly four decimal digits in parentheses) at index `p`. -/
def parenGroupAt (s : List Char) (p : Nat) : Option (List Char) :=
  if p + 6 ≤ s.length then
    match (s.drop p).take 6 with
    | '(' :: a :: b :: c :: d :: [')'] =>
      if a.isDigit && b.isDigit && c.isDigit && d.isDigit then some [a, b, c, d] else none
    | _ => none
  else none

/-- First index `p ≥ start` carrying a `(dddd)` group; `fuel` only bounds the
scan. -/
def pat1FindAux (s : List Char) : Nat → Nat → Option (Nat × List Char)
  | 0, _ => none
  | fuel + 1, p =>
    if p + 6 ≤ s.length then
      match parenGroupAt s p with
      | some d => some (p, d)
      | none => pat1FindAux s fuel (p + 1)
    else none

/-- Pattern 1 of `parseMovieFilename` (`/(.+?)\s*\((\d{4})\)/`): the match
reduces to the first `(dddd)` occurrence at an index `≥ 1` (the lazy `(.+?)`
needs at least one preceding character). -/
def pat1Find (s : List Char) : Option (Nat × List Char) :=
  pat1FindAux s (s.length + 1) 1

/-- Attempt of the year regex `/(?:\.| |^)(\d{4})(?:\.| |$|[^px\d])/` at start
index `i`; returns the captured digits and the length of the whole match.
Alternative order: a `'.'`/`' '` lead is tried before the zero-width `^`. -/
def yearMatchAt (s : List Char) (i : Nat) : Option (List Char × Nat) :=
  let lead : Nat → Option (List Char × Nat) := fun off =>
    match (s.drop (i + off)).take 4 with
    | a :: b :: c :: [d] =>
      if a.isDigit && b.isDigit && c.isDigit && d.isDigit then
        let t := i + off + 4
        if t = s.length then some ([a, b, c, d], off + 4)
        else
          match s.drop t with
          | e :: _ =>
            if e = 'p' ∨ e = 'x' ∨ e.isDigit then none else some ([a, b, c, d], off + 5)
          | [] => none
      else none
    | _ => none
  match s.drop i with
  | [] => if i = 0 then lead 0 else none
  | c :: _ =>
    if c = '.' ∨ c = ' ' then
      match lead 1 with
      | some r => some r
      | none => if i = 0 then lead 0 else none
    else if i = 0 then lead 0 else none

/-- Leftmost year-regex match at a start index `≥ i`; `fuel` only bounds the
scan. -/
def findYearFrom (s : List Char) : Nat → Nat → Option (Nat × List Char × Nat)
  | 0, _ => none
  | fuel + 1, i =>
    if i ≤ s.length then
      match yearMatchAt s i with
      | some (d, len) => some (i, d, len)
      | none => findYearFrom s fuel (i + 1)
    else none

/-- The `yearRegex.exec` loop of `parseMovieFilename`: successive
non-overlapping matches, skipping a captured `"1080"` whose following text
starts (case-insensitively) with `'p'`.  Each candidate records the match
start index and the captured digits. -/
def movieYearScanAux (s : List Char) (pos fuel : Nat) : List (Nat × List Char) :=
  match fuel with
  | 0 => []
  | fuel + 1 =>
    match findYearFrom s (s.length + 1) pos with
    | none => []
    | some (i, d, len) =>
      let rest := movieYearScanAux s (i + len) fuel
      let skip1080 : Bool :=
        d = ['1', '0', '8', '0'] &&
          (match toLowerList (s.drop (i + len)) with
           | 'p' :: _ => true
           | _ => false)
      if skip1080 then rest else (i, d) :: rest

def movieYearCandidates (s : List Char) : List (Nat × List Char) :=
  movieYearScanAux s 0 (s.length + 1)

/-- `titlePart.replace(/[\.\s]+$/, "")`. -/
def dropTrailingDotWs (s : List Char) : List Char :=
  (s.reverse.dropWhile (fun c => wsChar c || c = '.')).reverse

/-- `filenameParser.ts` `parseMovieFilename`. -/
def parseMovieFilename (dict : List (List Char)) (filename : List Char) :
    ParsedMovieInfo :=
  let name := cleanMovieName dict filename
  match pat1Find name with
  | some (p, d) => { title := jsTrim (name.take p), year := some d, originalFilename := filename }
  | none =>
    match (movieYearCandidates name).getLast? with
    | some (idx, y) =>
      let titlePart := jsTrim (dropTrailingDotWs (name.take idx))
      if titlePart ≠ [] then
        { title := titlePart, year := some y, originalFilename := filename }
      else
        { title := jsTrim name, year := none, originalFilename := filename }
    | none => { title := jsTrim name, year := none, originalFilename := filename }

/-! ### A small backtracking regex engine

Faithful to the JS engine for the patterns used by `parseShowFilename`:
alternation prefers the left branch, `*`/`?`/`{m,n}` are greedy, `*?` is lazy,
and the first solution in that exploration order wins.  `fuel` bounds the
number of engine steps; it is chosen large enough for the (polynomially
backtracking) patterns used here, and none of the universally quantified
theorems below depend on its value. -/

/-- JS `\w` (ASCII). -/
def wordChar (c : Char) : Bool := c.isAlpha || c.isDigit || c = '_'

/-- First-order character classes: exactly those used by the patterns of
`parseShowFilename`. -/
inductive CC where
  | any : CC
  | digit : CC
  | notWord : CC
  | ws : CC
  | wsDash : CC
  | wsDdDash : CC
  | notWordNotDigit : CC
  | litI (c : Char) : CC
  | lit (c : Char) : CC
deriving DecidableEq, Repr

/-- Semantics of a character class. -/
def CC.eval : CC → Char → Bool
  | .any, c => c ≠ '\n'
  | .digit, c => c.isDigit
  | .notWord, c => ¬ wordChar c
  | .ws, c => wsChar c
  | .wsDash, c => wsChar c || c = '-'
  | .wsDdDash, c => wsChar c || c = 'D' || c = 'd'
  | .notWordNotDigit, c => ¬ wordChar c && ¬ c.isDigit
  | .litI a, c => c.toLower = a.toLower
  | .lit a, c => c = a

inductive RE where
  | eps : RE
  | eos : RE
  | cls (cc : CC) : RE
  | cat (a b : RE) : RE
  | alt (a b : RE) : RE
  | starL (a : RE) : RE
  | starG (a : RE) : RE
  | opt (a : RE) : RE
  | rep (a : RE) (mn mx : Nat) : RE
  | grp (i : Nat) (a : RE) : RE
deriving DecidableEq, Repr

/-- Captured groups, most recent first (as recorded along the successful
backtracking path). -/
abbrev Caps := List (Nat × List Char)

def capLookup (caps : Caps) (i : Nat) : Option (List Char) :=
  match caps with
  | [] => none
  | pr :: r => if pr.1 = i then some pr.2 else capLookup r i

/-- Strict `Option` fallback used by the engine (both branches are pure). -/
def orO (a b : Option α) : Option α :=
  match a with
  | some x => some x
  | none => b

def reRun (fuel : Nat) (r : RE) (s : List Char) (caps : Caps)
    (k : List Char → Caps → Option (List Char × Caps)) : Option (List Char × Caps) :=
  match fuel with
  | 0 => none
  | f + 1 =>
    match r with
    | .eps => k s caps
    | .eos => if s = [] then k s caps else none
    | .cls cc =>
      match s with
      | [] => none
      | c :: rest => if cc.eval c then k rest caps else none
    | .cat a b => reRun f a s caps (fun s1 c1 => reRun f b s1 c1 k)
    | .alt a b => orO (reRun f a s caps k) (reRun f b s caps k)
    | .starL a =>
      orO (k s caps)
        (reRun f a s caps (fun s1 c1 =>
          if s1.length < s.length then reRun f (.starL a) s1 c1 k else none))
    | .starG a =>
      orO
        (reRun f a s caps (fun s1 c1 =>
          if s1.length < s.length then reRun f (.starG a) s1 c1 k else none))
        (k s caps)
    | .opt a => orO (reRun f a s caps k) (k s caps)
    | .rep a mn mx =>
      if mn ≠ 0 then reRun f a s caps (fun s1 c1 => reRun f (.rep a (mn - 1) (mx - 1)) s1 c1 k)
      else if mx = 0 then k s caps
      else orO (reRun f a s caps (fun s1 c1 => reRun f (.rep a 0 (mx - 1)) s1 c1 k)) (k s caps)
    | .grp i a =>
      reRun f a s caps (fun s1 c1 => k s1 ((i, s.take (s.length - s1.length)) :: c1))

/-- Match `r` anchored at the start of `s` (all patterns below begin with a
lazy `(.*?)`, which makes anchored matching equivalent to the JS unanchored
search).  Returns the unconsumed rest (`s.substring(match[0].length)`) and the
captures. -/
def reMatch (fuel : Nat) (r : RE) (s : List Char) : Option (List Char × Caps) :=
  reRun fuel r s [] (fun rest caps => some (rest, caps))

def showFuel (s : List Char) : Nat := (s.length + 4) * (s.length + 4) * (s.length + 4) * 64

/-! ### The `parseShowFilename` regexes (`filenameParser.ts`) -/

/-- `.` (anything but a newline). -/
def anyChar : RE := .cls .any

/-- A case-insensitive literal character (the `/i` flag). -/
def chI (c : Char) : RE := .cls (.litI c)

def chE (c : Char) : RE := .cls (.lit c)

def strI (w : List Char) : RE := (w.map chI).foldr .cat .eps

def notWordCls : RE := .cls .notWord

def digits13 (i : Nat) : RE := .grp i (.rep (.cls .digit) 1 3)

/-- `E(?:p(?:isode)?)?`, case-insensitively. -/
def epMarker : RE := .cat (chI 'E') (.opt (.cat (chI 'p') (.opt (strI "isode".data))))

/-- Pattern 1: `(.*?)[^\w]*(?:S(?:eason)?[^\w]*(\d{1,3}))[^\w]*(?:E(?:p(?:isode)?)?[^\w]*(\d{1,3}))(?:[^\w]*(?:E(?:p(?:isode)?)?[^\w]*(\d{1,3})))?` with `/i`. -/
def showPat1 : RE :=
  .cat (.grp 1 (.starL anyChar))
    (.cat (.starG notWordCls)
      (.cat (.cat (chI 'S') (.cat (.opt (strI "eason".data))
          (.cat (.starG notWordCls) (digits13 2))))
        (.cat (.starG notWordCls)
          (.cat (.cat epMarker (.cat (.starG notWordCls) (digits13 3)))
            (.opt (.cat (.starG notWordCls)
              (.cat epMarker (.cat (.starG notWordCls) (digits13 4)))))))))

/-- Pattern 2: `(.*?)[^\w]*(\d{1,3})x(\d{1,3})(?:[\s-]*-?[\sDd]*(\d{1,3}))?` with `/i`. -/
def showPat2 : RE :=
  .cat (.grp 1 (.starL anyChar))
    (.cat (.starG notWordCls)
      (.cat (digits13 2)
        (.cat (chI 'x')
          (.cat (digits13 3)
            (.opt (.cat (.starG (.cls .wsDash))
              (.cat (.opt (chE '-'))
                (.cat (.starG (.cls .wsDdDash))
                  (digits13 4)))))))))

/-- Pattern 3: `(.*?)[^\w]*(?:(?:Episode|Part|Ep|Pt)[^\w\d]*(\d{1,3}))` with `/i`. -/
def showPat3 : RE :=
  .cat (.grp 1 (.starL anyChar))
    (.cat (.starG notWordCls)
      (.cat (.alt (strI "Episode".data) (.alt (strI "Part".data)
          (.alt (strI "Ep".data) (strI "Pt".data))))
        (.cat (.starG (.cls .notWordNotDigit)) (digits13 2))))

/-- The year-extraction regex `/(.*?)\s*\(?(\d{4})\)?$/` applied to the title
candidate. -/
def showYearRe : RE :=
  .cat (.grp 1 (.starL anyChar))
    (.cat (.starG (.cls .ws))
      (.cat (.opt (chE '('))
        (.cat (.grp 2 (.rep (.cls .digit) 4 4))
          (.cat (.opt (chE ')')) .eos))))

/-! ### `parseShowFilename` (`filenameParser.ts`) -/

structure ParsedShowInfo where
  seriesTitle : Option (List Char)
  seasonNumber : Option Int
  episodeNumber : Option Int
  episodeTitle : Option (List Char)
  year : Option (List Char)
  originalFilename : List Char
deriving DecidableEq, Repr

/-- `match[j]` followed by `parseInt(·, 10)`; the guard mirrors the JS
truthiness test `if (match[j]) ...` (an unset or empty capture is skipped). -/
def numFromCap (caps : Caps) (j : Nat) : Option Int :=
  match capLookup caps j with
  | some cs => if cs = [] then none else jsParseInt cs
  | none => none

def qualityTags : List (List Char) :=
  ["1080p".data, "720p".data, "480p".data, "HDTV".data, "WEB-DL".data, "WEBRip".data,
   "BluRay".data, "x264".data, "x265".data, "AAC".data, "DTS".data]

/-- The `cutOffIndex` computation: fold `Math.min` over the (case-insensitive)
positions of the known quality tags, starting from `remainder.length`. -/
def cutOffIndex (remainder : List Char) : Nat :=
  qualityTags.foldl
    (fun acc tag =>
      match idxOfSub (toLowerList remainder) (toLowerList tag) with
      | some i => min acc i
      | none => acc)
    remainder.length

/-- `remainder.substring(0, cutOffIndex).replace(/^[- ]+/,"").replace(/[- ]+$/,"").trim() || null`. -/
def extractEpisodeTitle (remainder : List Char) : Option (List Char) :=
  let t := remainder.take (cutOffIndex remainder)
  let t := t.dropWhile (fun c => c = '-' || c = ' ')
  let t := (t.reverse.dropWhile (fun c => c = '-' || c = ' ')).reverse
  let t := jsTrim t
  if t = [] then none else some t

/-- `titleCandidate.replace(/[\s-]+$/, "")`. -/
def dropTrailingWsDash (s : List Char) : List Char :=
  (s.reverse.dropWhile (fun c => wsChar c || c = '-')).reverse

/-- Intermediate result of one matched season/episode pattern. -/
structure ShowMatchFields where
  seriesTitle : Option (List Char)
  seasonNumber : Option Int
  episodeNumber : Option Int
  episodeTitle : Option (List Char)
  year : Option (List Char)

/-- Processing of a successful pattern match inside the `for (const p of
sePatterns)` loop: numbers from the captures, series title / year split from
the capture before the marker, episode title from the rest of the string. -/
def showMatchFields (m : List Char × Caps)
    (sIdx : Option Nat) (eIdx tIdx : Nat) : ShowMatchFields :=
  let caps := m.2
  let seasonNumber : Option Int :=
    match sIdx with
    | some j => numFromCap caps j
    | none => none
  let episodeNumber : Option Int := numFromCap caps eIdx
  let titleCandidate := jsTrim ((capLookup caps tIdx).getD [])
  let titleCandidate := jsTrim (dropTrailingWsDash titleCandidate)
  let titleYear : List Char × Option (List Char) :=
    match reMatch (showFuel titleCandidate) showYearRe titleCandidate with
    | some (_, ycaps) =>
      match capLookup ycaps 1, capLookup ycaps 2 with
      | some g1, some g2 =>
        if g1 ≠ [] ∧ g2 ≠ [] then (jsTrim g1, some g2) else (titleCandidate, none)
      | _, _ => (titleCandidate, none)
    | none => (titleCandidate, none)
  let remainder := jsTrim m.1
  { seriesTitle := some titleYear.1
    seasonNumber := seasonNumber
    episodeNumber := episodeNumber
    episodeTitle := extractEpisodeTitle remainder
    year := titleYear.2 }

/-- Post-processing of the extracted series title (steps after the pattern
loop): optional wordlist splitting, whitespace collapsing, `"" → null`. -/
def postTitle (dict : List (List Char)) (t : Option (List Char)) : Option (List Char) :=
  match t with
  | none => none
  | some t0 =>
    let t1 :=
      if dict = [] then t0
      else splitStringByWords dict (acronymSplit (camelSplit t0))
    let t2 := jsTrim (collapseWs t1)
    if t2 = [] then none else some t2

/-- The `for (const p of sePatterns)` loop: the first matching pattern wins
(pattern 1, then 2, then 3); no match leaves every field `null`. -/
def showFields (cleanedName : List Char) : ShowMatchFields :=
  match reMatch (showFuel cleanedName) showPat1 cleanedName with
  | some m => showMatchFields m (some 2) 3 1
  | none =>
    match reMatch (showFuel cleanedName) showPat2 cleanedName with
    | some m => showMatchFields m (some 2) 3 1
    | none =>
      match reMatch (showFuel cleanedName) showPat3 cleanedName with
      | some m => showMatchFields m none 2 1
      | none =>
        { seriesTitle := none, seasonNumber := none, episodeNumber := none,
          episodeTitle := none, year := none }

/-- `filenameParser.ts` `parseShowFilename`.  `dict = []` models wordlist
splitting disabled/unavailable. -/
def parseShowFilename (dict : List (List Char)) (filename : List Char) :
    ParsedShowInfo :=
  let nameNoExt := basenameStripExtOf filename (extnameP filename)
  let cleanedName := jsTrim (nameNoExt.map (fun c => if c = '.' ∨ c = '_' then ' ' else c))
  let fields : ShowMatchFields := showFields cleanedName
  let seriesTitle0 :=
    if fields.seriesTitle = none ∧ fields.episodeNumber = none then some cleanedName
    else fields.seriesTitle
  let seriesTitle := postTitle dict seriesTitle0
  let seasonNumber :=
    if fields.seasonNumber = none ∧ fields.episodeNumber ≠ none ∧ seriesTitle ≠ none then
      some (1 : Int)
    else fields.seasonNumber
  { seriesTitle := seriesTitle
    seasonNumber := seasonNumber
    episodeNumber := fields.episodeNumber
    episodeTitle := fields.episodeTitle
    year := fields.year
    originalFilename := filename }

/-! ### Duplicate-suffix collision resolution

The identical `_dup_N` probing loop of `movieOrganizer.ts`, `showOrganizer.ts`
and `musicOrganizer.ts`.  The filesystem is modelled by the existence
predicate `fs` (the awaited result of `access`). -/

def dupFileName (base ext : List Char) (i : Nat) : List Char :=
  base ++ "_dup_".data ++ natToDigits i ++ ext

/-- The `while (true)` probe loop: starting at `dupCount = i`, return the first
non-existing `_dup_N` path; once the incremented counter exceeds 100 the file
is given up on (`finalTargetFilePath = ''`, modelled as `none`). -/
def findDupPath (fs : List Char → Bool) (dir base ext : List Char) (i : Nat) :
    Option (List Char) :=
  let p := pathJoin dir (dupFileName base ext i)
  if fs p then
    if 100 < i + 1 then none else findDupPath fs dir base ext (i + 1)
  else some p
termination_by 101 - i
decreasing_by omega

/-- Target selection including the duplicate probing: keep the canonical target
if it does not exist, otherwise probe `_dup_1`, `_dup_2`, …. -/
def findUniqueTargetPath (fs : List Char → Bool) (dir base ext target : List Char) :
    Option (List Char) :=
  if fs target then findDupPath fs dir base ext 1 else some target

/-! ### Movie identity resolution (`movieOrganizer.ts` `organizeMovies`)

External results (embedded metadata, the two TMDB lookups, the LLM correction)
appear as fields of `MovieLookupEnv`; each field is the awaited result of the
corresponding call.  Interactive prompting is out of scope (the non-interactive
path is modelled). -/

structure VideoMeta where
  title : Option (List Char)
  year : Option Int
deriving DecidableEq, Repr

structure CorrectedMovieInfo where
  title : List Char
  year : Option Int
deriving DecidableEq, Repr

structure MovieLookupEnv where
  /-- `extractVideoFileMetadata(originalFilePath)`. -/
  videoMeta : Option VideoMeta
  /-- First `fetchTmdbMovieMetadata` call (seeded from embedded metadata or the
  gentle filename parse). -/
  tmdbSeed : Option ParsedMovieInfo
  /-- `getCorrectedMovieInfoFromLLM(...)`; `none` models an LLM failure
  (API error, rate limit, malformed output). -/
  llm : Option CorrectedMovieInfo
  /-- `fetchTmdbMovieMetadata` re-run with the LLM suggestion. -/
  tmdbViaLlm : Option ParsedMovieInfo
deriving Inhabited

inductive MovieIdentity where
  /-- A usable identity; the flag is `usedTmdb`. -/
  | resolved (info : ParsedMovieInfo) (usedTmdb : Bool)
  /-- `LLM correction failed. Skipping this file.` -/
  | skippedLlmFailure
deriving DecidableEq, Repr

/-- JS truthiness for an optional string (`undefined`/`""` are falsy). -/
def optTruthy (o : Option (List Char)) : Option (List Char) :=
  match o with
  | some [] => none
  | x => x

/-- The metadata-resolution block of `organizeMovies` (lines 64–144 of
`movieOrganizer.ts`): TMDB first, then LLM correction with TMDB retry, then
LLM fallback; LLM failure skips the file.  Without TMDB, embedded metadata is
preferred and the aggressive filename parse is the fallback. -/
def resolveMovieIdentity (useTmdb : Bool) (dict : List (List Char))
    (env : MovieLookupEnv) (fileBasename : List Char) : MovieIdentity :=
  if useTmdb then
    match env.tmdbSeed with
    | some info => .resolved info true
    | none =>
      match env.llm with
      | some llmResult =>
        match env.tmdbViaLlm with
        | some info2 => .resolved info2 true
        | none =>
          .resolved
            { title := llmResult.title, year := llmResult.year.map intToDigits,
              originalFilename := fileBasename } false
      | none => .skippedLlmFailure
  else
    match optTruthy (env.videoMeta.bind (·.title)) with
    | some t =>
      .resolved
        { title := t, year := (env.videoMeta.bind (·.year)).map intToDigits,
          originalFilename := fileBasename } false
    | none => .resolved (parseMovieFilename dict fileBasename) false

/-- `targetFolderName`: the parsed title plus an optional ` (Year)` suffix
(`if (parsedInfo.year)` — the empty string is falsy). -/
def movieFolderName (info : ParsedMovieInfo) : List Char :=
  match info.year with
  | some y => if y = [] then info.title else info.title ++ " (".data ++ y ++ ")".data
  | none => info.title

/-- The canonical target path for a resolved movie. -/
def movieTargetPath (source : List Char) (info : ParsedMovieInfo) (fileExt : List Char) :
    List Char :=
  let folder := movieSanitize (movieFolderName info)
  pathJoin (pathJoin source folder) (folder ++ fileExt)

/-- The `already organized` short-circuit at the top of the per-file loop:
the file sits in a direct subdirectory of the source, its stem equals the
parent directory name, and that name re-parses to itself. -/
def movieAlreadyOrganizedCheck (dict : List (List Char)) (source originalFilePath : List Char) :
    Bool :=
  let fileItself := basenameP originalFilePath
  let filenameStem := basenameStripExtOf fileItself (extnameP fileItself)
  let parentDir := dirnameP originalFilePath
  let parentDirName := basenameP parentDir
  let grandParentDir := dirnameP parentDir
  if grandParentDir = source ∧ filenameStem = parentDirName then
    let parsedDir := parseMovieFilename dict (parentDirName ++ extnameP fileItself)
    decide (parentDirName = movieFolderName parsedDir)
  else false

/-- The per-file outcome of `organizeMovies` (non-interactive). -/
inductive MovieAction where
  | skipAlreadyOrganized
  | skipLlmFailure
  | skipEmptyName
  | skipAlreadyInPlace
  | skipCollisionOverflow
  /-- `mkdir -p targetMovieDir` followed by `rename` onto the chosen path. -/
  | move (finalTarget : List Char)
  /-- Dry-run: only the planned target is logged. -/
  | dryRunPlan (target : List Char)
deriving DecidableEq, Repr

/-- One iteration of the `organizeMovies` per-file loop (non-interactive). -/
def movieFileStep (dict : List (List Char)) (isDryRun useTmdb : Bool)
    (source : List Char) (fs : List Char → Bool) (env : MovieLookupEnv)
    (originalFilePath : List Char) : MovieAction :=
  if movieAlreadyOrganizedCheck dict source originalFilePath then .skipAlreadyOrganized
  else
    let fileBasename := basenameP originalFilePath
    let fileExt := extnameP originalFilePath
    match resolveMovieIdentity useTmdb dict env fileBasename with
    | .skippedLlmFailure => .skipLlmFailure
    | .resolved info _ =>
      let sanitized := movieSanitize (movieFolderName info)
      if sanitized = [] then .skipEmptyName
      else
        let targetMovieDir := pathJoin source sanitized
        let targetFileName := sanitized ++ fileExt
        let newTargetFilePath := pathJoin targetMovieDir targetFileName
        if originalFilePath = newTargetFilePath then .skipAlreadyInPlace
        else if isDryRun then
          .dryRunPlan
            (if fs newTargetFilePath then
              pathJoin targetMovieDir (dupFileName (basenameStripExtOf targetFileName fileExt) fileExt 1)
            else newTargetFilePath)
        else
          match findUniqueTargetPath fs targetMovieDir
              (basenameStripExtOf targetFileName fileExt) fileExt newTargetFilePath with
          | some p => .move p
          | none => .skipCollisionOverflow

/-- The rename targets actually performed over a run (the `movedFiles` of a
non-interactive real run). -/
def movieRunMoves (dict : List (List Char)) (isDryRun useTmdb : Bool)
    (source : List Char) (fs : List Char → Bool) (envOf : List Char → MovieLookupEnv)
    (files : List (List Char)) : List (List Char) :=
  files.filterMap (fun f =>
    match movieFileStep dict isDryRun useTmdb source fs (envOf f) f with
    | .move p => some p
    | _ => none)

/-! ### Show placement (`showOrganizer.ts` `organizeShows`, steps 4–5)

The resolution stages (embedded metadata, TMDB, LLM) in front of the path
construction are external lookups; placement starts from the resolved
`final…` values, which are non-null at this point (guarded at line 190). -/

structure ShowFinals where
  seriesTitle : List Char
  seriesYear : Option Int
  seasonNumber : Int
  episodeNumber : Int
  episodeTitle : Option (List Char)
deriving DecidableEq, Repr

def showSeriesFolderName (fin : ShowFinals) : List Char :=
  sanitizeName fin.seriesTitle ++
    (match fin.seriesYear with
     | some y => " (".data ++ intToDigits y ++ ")".data
     | none => [])

def showSeasonFolderName (fin : ShowFinals) : List Char :=
  "Season ".data ++ padStart2 (intToDigits fin.seasonNumber)

def showTargetFileName (fin : ShowFinals) (fileExt : List Char) : List Char :=
  let base := sanitizeName fin.seriesTitle ++ " - S".data ++
    padStart2 (intToDigits fin.seasonNumber) ++ "E".data ++
    padStart2 (intToDigits fin.episodeNumber)
  let suffix :=
    match optTruthy fin.episodeTitle with
    | some t => " - ".data ++ sanitizeName t
    | none => []
  base ++ suffix ++ fileExt

def showTargetPath (source : List Char) (fin : ShowFinals) (fileExt : List Char) :
    List Char :=
  pathJoin (pathJoin (pathJoin source (showSeriesFolderName fin)) (showSeasonFolderName fin))
    (showTargetFileName fin fileExt)

inductive ShowAction where
  | skipPerfectlyOrganized
  | skipAlreadyInPlace
  | skipCollisionOverflow
  | move (finalTarget : List Char)
  | dryRunPlan (target : List Char)
deriving DecidableEq, Repr

/-- Steps 4–5 of the `organizeShows` per-file loop (non-interactive). -/
def showFileStep (isDryRun : Bool) (source : List Char) (fs : List Char → Bool)
    (fin : ShowFinals) (originalFilePath : List Char) : ShowAction :=
  let fileBasename := basenameP originalFilePath
  let fileExt := extnameP originalFilePath
  let seriesFolderName := showSeriesFolderName fin
  let seasonFolderName := showSeasonFolderName fin
  let targetFileName := showTargetFileName fin fileExt
  let targetSeasonPath := pathJoin (pathJoin source seriesFolderName) seasonFolderName
  let newTargetFilePath := pathJoin targetSeasonPath targetFileName
  let currentFileDir := dirnameP originalFilePath
  let currentSeasonFolder := basenameP currentFileDir
  let currentSeriesFolderDir := dirnameP currentFileDir
  let currentSeriesFolder := basenameP currentSeriesFolderDir
  if currentSeriesFolderDir ≠ source ∧ currentSeriesFolder = seriesFolderName ∧
      currentSeasonFolder = seasonFolderName ∧ fileBasename = targetFileName then
    .skipPerfectlyOrganized
  else if originalFilePath = newTargetFilePath then .skipAlreadyInPlace
  else if isDryRun then
    .dryRunPlan
      (if fs newTargetFilePath then
        pathJoin targetSeasonPath (dupFileName (basenameStripExtOf targetFileName fileExt) fileExt 1)
      else newTargetFilePath)
  else
    match findUniqueTargetPath fs targetSeasonPath
        (basenameStripExtOf targetFileName fileExt) fileExt newTargetFilePath with
    | some p => .move p
    | none => .skipCollisionOverflow

/-! ### Music (`musicOrganizer.ts`) -/

/-- JS `a || b` on optional strings (`undefined`/`""` falsy). -/
def orStr (a b : Option (List Char)) : Option (List Char) :=
  match optTruthy a with
  | some v => some v
  | none => b

/-- `hay.includes(needle)`. -/
def listContains (hay needle : List Char) : Bool := (idxOfSub hay needle).isSome

structure MBTrack where
  title : List Char
  /-- Track number as a string, when present. -/
  number : Option (List Char)
  /-- Credited artist names of the track, when present. -/
  artistCredit : Option (List (List Char))
deriving DecidableEq, Repr

structure MBRelease where
  title : List Char
  date : Option (List Char)
  /-- `releaseGroup?.primaryType`. -/
  releaseGroupPrimaryType : Option (List Char)
  /-- Credited artist names of the release, when present. -/
  artistCredit : Option (List (List Char))
deriving DecidableEq, Repr

structure MusicMeta where
  title : Option (List Char)
  artist : Option (List Char)
  albumArtist : Option (List Char)
  album : Option (List Char)
  year : Option Int
  trackNumber : Option Int
deriving DecidableEq, Repr

/-- `sanitizeName(title).toLowerCase()`. -/
def normTitle (s : List Char) : List Char := toLowerList (sanitizeName s)

/-- `typeof track.number === 'string' ? parseInt(track.number, 10) : track.number`;
`none` covers both an absent number and `NaN`, for which the JS `===`
comparison with a number is false either way. -/
def mbTrackNum (t : MBTrack) : Option Int := t.number.bind jsParseInt

/-- Truthiness of the normalized search title
(`normalizedSearchTitle && ...`: non-null and non-empty). -/
def nstTruthy (nst : Option (List Char)) : Bool :=
  match nst with
  | some v => v ≠ []
  | none => false

/-- First pass of `findMatchingTrackInRelease`: match by track number, with an
early return on a simultaneous exact title match (`Except.error` models the
`return track` inside the loop, `Except.ok` the state after the loop). -/
def trackPass1 (n : Int) (nst : Option (List Char)) :
    List MBTrack → Option MBTrack → Except MBTrack (Option MBTrack)
  | [], best => .ok best
  | t :: rest, best =>
    if mbTrackNum t = some n then
      let ntt := normTitle t.title
      if nstTruthy nst ∧ nst = some ntt then .error t
      else
        let best' :=
          if best = none ∨ (nstTruthy nst ∧ listContains ntt ((nst).getD [])) then some t
          else best
        trackPass1 n nst rest best'
    else trackPass1 n nst rest best

/-- Second pass: match by title alone; exact match returns outright, otherwise
substring containment with a preference for the shortest containing title. -/
def trackPass2 (v : List Char) :
    List MBTrack → Option MBTrack → Except MBTrack (Option MBTrack)
  | [], best => .ok best
  | t :: rest, best =>
    let ntt := normTitle t.title
    if ntt = v then .error t
    else if listContains ntt v then
      let best' :=
        match best with
        | none => some t
        | some b => if ntt.length < (normTitle b.title).length then some t else some b
      trackPass2 v rest best'
    else trackPass2 v rest best

/-- `musicOrganizer.ts` `findMatchingTrackInRelease`. -/
def findMatchingTrackInRelease (tracks : List MBTrack) (searchTitle : Option (List Char))
    (searchTrackNumber : Option (List Char)) : Option MBTrack :=
  if tracks = [] then none
  else if (optTruthy searchTitle).isNone ∧ (optTruthy searchTrackNumber).isNone then none
  else
    let nst : Option (List Char) := (optTruthy searchTitle).map normTitle
    let searchTrackNum : Option Int := searchTrackNumber.bind jsParseInt
    let afterPass1 : Option MBTrack :=
      match searchTrackNum with
      | some n =>
        match trackPass1 n nst tracks none with
        | .error t => some t
        | .ok best => best
      | none => none
    match afterPass1 with
    | some t => some t
    | none =>
      if nstTruthy nst then
        match trackPass2 ((nst).getD []) tracks none with
        | .error t => some t
        | .ok best => best
      else none

structure MusicPathComponents where
  targetArtistFolder : List Char
  targetAlbumFolder : List Char
  targetAlbumPath : List Char
  targetFileName : List Char
  targetFullPath : List Char
  originalFilePath : List Char
  fileBasename : List Char
  fileExt : List Char
deriving DecidableEq, Repr

def joinComma (names : List (List Char)) : List Char := List.intercalate ", ".data names

/-- `musicOrganizer.ts` `determineMusicPathComponents`. -/
def determineMusicPathComponents (filePath : List Char) (metadata : MusicMeta)
    (destinationDirectory : List Char) (mbReleaseDetails : Option MBRelease)
    (mbMatchedTrack : Option MBTrack) (mbReleaseArtistFromSearch : Option (List Char)) :
    MusicPathComponents :=
  let fileBasename := basenameP filePath
  let fileExt := extnameP filePath
  match mbReleaseDetails with
  | some rel =>
    let finalAlbumArtist :=
      (orStr mbReleaseArtistFromSearch (orStr metadata.albumArtist metadata.artist)).getD
        "Unknown Artist".data
    let finalAlbumYear : Option (List Char) :=
      orStr (rel.date.map (List.take 4)) (metadata.year.map intToDigits)
    let primaryTypeIsCompilation :=
      rel.releaseGroupPrimaryType.map toLowerList = some "compilation".data
    let artistCreditIsVarious :=
      (rel.artistCredit.getD []).any (fun n => toLowerList n = "various artists".data)
    let isCompilation := primaryTypeIsCompilation || artistCreditIsVarious
    let finalTrackTitle :=
      (orStr (mbMatchedTrack.map (·.title)) metadata.title).getD "Unknown Track".data
    let finalTrackNumberStr :=
      padStart2
        ((orStr (mbMatchedTrack.bind (·.number)) (metadata.trackNumber.map intToDigits)).getD
          "00".data)
    let trackSpecificArtist : Option (List Char) :=
      (mbMatchedTrack.bind (·.artistCredit)).map joinComma
    let finalAlbumArtist := if isCompilation then "Various Artists".data else finalAlbumArtist
    let finalAlbumArtist := sanitizeName finalAlbumArtist
    let finalAlbumTitle := sanitizeName rel.title
    let finalTrackTitle := sanitizeName finalTrackTitle
    let sanitizedTrackSpecificArtist :=
      sanitizeName ((orStr trackSpecificArtist metadata.artist).getD [])
    let targetArtistFolder := finalAlbumArtist
    let targetAlbumFolder :=
      finalAlbumTitle ++
        (match optTruthy finalAlbumYear with
         | some y => " (".data ++ y ++ ")".data
         | none => [])
    let trackFilenameBase :=
      if isCompilation ∧ sanitizedTrackSpecificArtist ≠ [] ∧
          toLowerList sanitizedTrackSpecificArtist ≠ "various artists".data then
        finalTrackNumberStr ++ " - ".data ++ sanitizedTrackSpecificArtist ++ " - ".data ++
          finalTrackTitle
      else finalTrackNumberStr ++ " - ".data ++ finalTrackTitle
    let targetFileName := trackFilenameBase ++ fileExt
    let targetAlbumPath := pathJoin (pathJoin destinationDirectory targetArtistFolder) targetAlbumFolder
    let targetFullPath := pathJoin targetAlbumPath targetFileName
    { targetArtistFolder, targetAlbumFolder, targetAlbumPath, targetFileName, targetFullPath,
      originalFilePath := filePath, fileBasename, fileExt }
  | none =>
    let finalAlbumArtist :=
      sanitizeName ((orStr metadata.albumArtist metadata.artist).getD "Unknown Artist".data)
    let finalAlbumTitle := sanitizeName ((optTruthy metadata.album).getD "Unknown Album".data)
    let finalAlbumYear : Option (List Char) := metadata.year.map intToDigits
    let finalTrackTitle := sanitizeName ((optTruthy metadata.title).getD "Unknown Track".data)
    let finalTrackNumberStr :=
      padStart2 ((metadata.trackNumber.map intToDigits).getD "00".data)
    let isCompilation := listContains (toLowerList finalAlbumArtist) "various artists".data
    let sanitizedTrackArtist := sanitizeName (metadata.artist.getD [])
    let trackFilenameBase :=
      if isCompilation ∧ sanitizedTrackArtist ≠ [] ∧
          toLowerList sanitizedTrackArtist ≠ "various artists".data ∧
          toLowerList sanitizedTrackArtist ≠ toLowerList finalAlbumArtist then
        finalTrackNumberStr ++ " - ".data ++ sanitizedTrackArtist ++ " - ".data ++ finalTrackTitle
      else finalTrackNumberStr ++ " - ".data ++ finalTrackTitle
    let targetArtistFolder := finalAlbumArtist
    let targetAlbumFolder :=
      finalAlbumTitle ++
        (match optTruthy finalAlbumYear with
         | some y => " (".data ++ y ++ ")".data
         | none => [])
    let targetFileName := trackFilenameBase ++ fileExt
    let targetAlbumPath := pathJoin (pathJoin destinationDirectory targetArtistFolder) targetAlbumFolder
    let targetFullPath := pathJoin targetAlbumPath targetFileName
    { targetArtistFolder, targetAlbumFolder, targetAlbumPath, targetFileName, targetFullPath,
      originalFilePath := filePath, fileBasename, fileExt }

inductive MusicAction where
  | skipPerfectlyOrganized
  | skipAlreadyInPlace
  | skipCollisionOverflow
  | move (finalTarget : List Char)
  | dryRunPlan (target : List Char)
deriving DecidableEq, Repr

/-- The file-operations section of the `organizeMusic` per-file loop
(non-interactive), starting from the computed path components. -/
def musicFileStep (isDryRun : Bool) (source : List Char) (fs : List Char → Bool)
    (comps : MusicPathComponents) (originalFilePath : List Char) : MusicAction :=
  let currentFileDir := dirnameP originalFilePath
  let currentAlbumFolderBasename := basenameP currentFileDir
  let currentArtistFolderDir := dirnameP currentFileDir
  let currentArtistFolderBasename := basenameP currentArtistFolderDir
  if dirnameP currentArtistFolderDir = source ∧
      currentArtistFolderBasename = comps.targetArtistFolder ∧
      currentAlbumFolderBasename = comps.targetAlbumFolder ∧
      comps.fileBasename = comps.targetFileName then
    .skipPerfectlyOrganized
  else if originalFilePath = comps.targetFullPath then .skipAlreadyInPlace
  else if isDryRun then
    .dryRunPlan
      (if fs comps.targetFullPath then
        pathJoin comps.targetAlbumPath
          (dupFileName (basenameStripExtOf comps.targetFileName comps.fileExt) comps.fileExt 1)
      else comps.targetFullPath)
  else
    match findUniqueTargetPath fs comps.targetAlbumPath
        (basenameStripExtOf comps.targetFileName comps.fileExt) comps.fileExt
        comps.targetFullPath with
    | some p => .move p
    | none => .skipCollisionOverflow

/-! ### Predicates about the regex engine used in proofs -/

/-- Every character consumed by the expression satisfies `p`; no captures. -/
def REclsOnly (p : Char → Bool) : RE → Prop
  | .eps => True
  | .eos => True
  | .cls cc => ∀ c, cc.eval c = true → p c = true
  | .cat a b => REclsOnly p a ∧ REclsOnly p b
  | .alt a b => REclsOnly p a ∧ REclsOnly p b
  | .starL a => REclsOnly p a
  | .starG a => REclsOnly p a
  | .opt a => REclsOnly p a
  | .rep a _ _ => REclsOnly p a
  | .grp _ _ => False

/-- The expression consumes only decimal digits and contains no capture group
(syntactic check). -/
def REdigitsOnly : RE → Bool
  | .eps => true
  | .eos => true
  | .cls cc => cc = CC.digit
  | .cat a b => REdigitsOnly a && REdigitsOnly b
  | .alt a b => REdigitsOnly a && REdigitsOnly b
  | .starL a => REdigitsOnly a
  | .starG a => REdigitsOnly a
  | .opt a => REdigitsOnly a
  | .rep a _ _ => REdigitsOnly a
  | .grp _ _ => false

/-- Every group watched by `w` captures only decimal digits (syntactic check). -/
def REdigitGroupsOk (w : Nat → Bool) : RE → Bool
  | .eps => true
  | .eos => true
  | .cls _ => true
  | .cat a b => REdigitGroupsOk w a && REdigitGroupsOk w b
  | .alt a b => REdigitGroupsOk w a && REdigitGroupsOk w b
  | .starL a => REdigitGroupsOk w a
  | .starG a => REdigitGroupsOk w a
  | .opt a => REdigitGroupsOk w a
  | .rep a _ _ => REdigitGroupsOk w a
  | .grp i a => (!w i || REdigitsOnly a) && REdigitGroupsOk w a

/-- All recorded captures at watched indices are digit strings. -/
def WatchedGood (w : Nat → Bool) (caps : Caps) : Prop :=
  ∀ pr ∈ caps, w pr.1 = true → pr.2.all Char.isDigit = true

/-- The numeric capture groups of the season/episode patterns. -/
def watched234 : Nat → Bool := fun i => i = 2 || i = 3 || i = 4

/-- The title-only update rule of the second matching pass (used to state the
loop of `trackPass2` as a fold in proofs). -/
def trackPass2Step (v : List Char) (best : Option MBTrack) (t : MBTrack) : Option MBTrack :=
  if listContains (normTitle t.title) v then
    match best with
    | none => some t
    | some b =>
      if (normTitle t.title).length < (normTitle b.title).length then some t else some b
  else best

/-- Modelled from the spec: the sanitization as the spec words it — "strip
`/ ? % * : | " < > .` from every path segment, then trim whitespace" — i.e.
the banned characters are deleted rather than replaced.  Used only to compare
the spec's wording against the implemented `sanitizeName`. -/
def sanitizeSpecStrip (s : List Char) : List Char :=
  jsTrim (s.filter (fun c => ¬ bannedChar c))

/-! ## Theorems -/

/-! ### List helper lemmas -/

theorem dropWhile_idem (p : Char → Bool) (l : List Char) :
    (l.dropWhile p).dropWhile p = l.dropWhile p := by
  induction l with
  | nil => simp
  | cons a l ih =>
    by_cases h : p a
    · simpa [List.dropWhile, h] using ih
    · simp [List.dropWhile, h]

theorem jsTrimStart_idem (l : List Char) : jsTrimStart (jsTrimStart l) = jsTrimStart l :=
  dropWhile_idem _ l

theorem jsTrimEnd_idem (l : List Char) : jsTrimEnd (jsTrimEnd l) = jsTrimEnd l := by
  simp [jsTrimEnd, dropWhile_idem]

theorem jsTrimEnd_cons (a : Char) (y : List Char) :
    jsTrimEnd (a :: y) =
      (if jsTrimEnd y = [] then (if wsChar a then [] else [a]) else a :: jsTrimEnd y) := by
  simp only [jsTrimEnd, List.reverse_cons]
  rcases h : (y.reverse.dropWhile fun c => wsChar c) with _ | ⟨b, r⟩
  · have hall : ∀ c ∈ y.reverse, wsChar c := by
      intro c hc
      by_contra hc2
      have := List.dropWhile_eq_nil_iff.mp h c hc
      exact hc2 (by simpa using this)
    have h2 : (y.reverse ++ [a]).dropWhile (fun c => wsChar c) =
        [a].dropWhile (fun c => wsChar c) := by
      rw [List.dropWhile_append]
      simp [h]
    rw [h2]
    by_cases ha : wsChar a <;> simp [List.dropWhile, ha]
  · have h2 : (y.reverse ++ [a]).dropWhile (fun c => wsChar c) = (b :: r) ++ [a] := by
      rw [List.dropWhile_append]
      simp [h]
    rw [h2]
    simp

theorem jsTrim_trimStart_trimEnd (y : List Char) :
    jsTrim (jsTrimStart (jsTrimEnd y)) = jsTrim y := by
  induction y with
  | nil => rfl
  | cons a y ih =>
    by_cases ha : wsChar a
    · rcases h : jsTrimEnd y with _ | ⟨b, r⟩
      · simp only [jsTrim, jsTrimEnd_cons, h, ha, if_true, if_pos rfl]
        simp only [jsTrim, jsTrimEnd_cons, h] at ih
        simp only [jsTrimStart, List.dropWhile, ha] at ih ⊢
        simpa [jsTrimStart, List.dropWhile] using ih
      · simp only [jsTrim, jsTrimEnd_cons, h] at ih ⊢
        simp only [if_neg (by simp : (b :: r : List Char) ≠ [])]
        simp only [jsTrimStart, List.dropWhile, ha] at ih ⊢
        exact ih
    · have hte : jsTrimEnd (a :: y) = a :: jsTrimEnd y := by
        rw [jsTrimEnd_cons]
        by_cases h : jsTrimEnd y = [] <;> simp [h, ha]
      have hts : ∀ z : List Char, jsTrimStart (a :: z) = a :: z := by
        intro z
        simp [jsTrimStart, List.dropWhile, ha]
      rw [hte, hts]
      show jsTrimEnd (jsTrimStart (a :: jsTrimEnd y)) = jsTrimEnd (jsTrimStart (a :: y))
      rw [hts, hts, jsTrimEnd_cons, jsTrimEnd_cons, jsTrimEnd_idem]

/-- `sanitizeName` coincides with replace-then-trim (the redundant leading and
trailing whitespace strips fold into the final `trim`). -/
theorem sanitizeName_eq_trim_replace (s : List Char) :
    sanitizeName s = jsTrim (s.map (fun c => if bannedChar c then '_' else c)) := by
  rw [sanitizeName, jsTrim_trimStart_trimEnd]

theorem mem_jsTrim (c : Char) (l : List Char) (h : c ∈ jsTrim l) : c ∈ l := by
  have h1 : ∀ (z : List Char), c ∈ jsTrimStart z → c ∈ z := by
    intro z hz
    exact (List.dropWhile_sublist _).mem hz
  have h2 : ∀ (z : List Char), c ∈ jsTrimEnd z → c ∈ z := by
    intro z hz
    simp only [jsTrimEnd, List.mem_reverse] at hz
    simpa using (List.dropWhile_sublist _).mem hz
  exact h1 _ (h2 _ h)

/-- Nothing from the banned class survives sanitization. -/
theorem sanitizeName_no_banned (s : List Char) :
    ∀ c ∈ sanitizeName s, bannedChar c = false := by
  intro c hc
  rw [sanitizeName_eq_trim_replace] at hc
  have hc2 := mem_jsTrim c _ hc
  rcases List.mem_map.mp hc2 with ⟨x, _, hx⟩
  by_cases hb : bannedChar x
  · simp [hb] at hx
    subst hx
    rfl
  · simp [hb] at hx
    subst hx
    simpa using hb

/-! ### Collision probing (`_dup_N`) lemmas -/

theorem findDupPath_not_exists (fs : List Char → Bool) (dir base ext : List Char) :
    ∀ i q, findDupPath fs dir base ext i = some q → fs q = false := by
  have H : ∀ (m i : Nat), 101 - i ≤ m → ∀ q, findDupPath fs dir base ext i = some q →
      fs q = false := by
    intro m
    induction m with
    | zero =>
      intro i hi q hq
      rw [findDupPath] at hq
      rcases h : fs (pathJoin dir (dupFileName base ext i)) with _ | _
      · simp [h] at hq
        rw [← hq]
        exact h
      · simp [h] at hq
        rcases hq with ⟨h100, _⟩
        omega
    | succ m ih =>
      intro i hi q hq
      rw [findDupPath] at hq
      rcases h : fs (pathJoin dir (dupFileName base ext i)) with _ | _
      · simp [h] at hq
        rw [← hq]
        exact h
      · simp [h] at hq
        rcases hq with ⟨h100, hq⟩
        exact ih (i + 1) (by omega) q hq
  intro i q hq
  exact H (101 - i) i (le_refl _) q hq

theorem findDupPath_all_exist (fs : List Char → Bool) (dir base ext : List Char) :
    ∀ i, 1 ≤ i → i ≤ 100 →
    (∀ j, i ≤ j → j ≤ 100 → fs (pathJoin dir (dupFileName base ext j)) = true) →
    findDupPath fs dir base ext i = none := by
  have H : ∀ (m i : Nat), 101 - i ≤ m → 1 ≤ i → i ≤ 100 →
      (∀ j, i ≤ j → j ≤ 100 → fs (pathJoin dir (dupFileName base ext j)) = true) →
      findDupPath fs dir base ext i = none := by
    intro m
    induction m with
    | zero => intro i hi _ h100 _; omega
    | succ m ih =>
      intro i hi h1 h100 hall
      rw [findDupPath]
      have hfs : fs (pathJoin dir (dupFileName base ext i)) = true :=
        hall i (le_refl _) h100
      rw [hfs]
      simp only [if_true]
      by_cases hlast : i = 100
      · subst hlast
        norm_num
      · have : ¬ (100 < i + 1) := by omega
        simp only [this, if_false, if_neg this]
        exact ih (i + 1) (by omega) (by omega) (by omega)
          (fun j hj hj2 => hall j (by omega) hj2)
  intro i h1 h100 hall
  exact H (101 - i) i (le_refl _) h1 h100 hall

theorem findDupPath_first_free (fs : List Char → Bool) (dir base ext : List Char) :
    ∀ i i₀, i ≤ i₀ → i₀ ≤ 100 →
    fs (pathJoin dir (dupFileName base ext i₀)) = false →
    (∀ j, i ≤ j → j < i₀ → fs (pathJoin dir (dupFileName base ext j)) = true) →
    findDupPath fs dir base ext i = some (pathJoin dir (dupFileName base ext i₀)) := by
  have H : ∀ (m i i₀ : Nat), 101 - i ≤ m → i ≤ i₀ → i₀ ≤ 100 →
      fs (pathJoin dir (dupFileName base ext i₀)) = false →
      (∀ j, i ≤ j → j < i₀ → fs (pathJoin dir (dupFileName base ext j)) = true) →
      findDupPath fs dir base ext i = some (pathJoin dir (dupFileName base ext i₀)) := by
    intro m
    induction m with
    | zero => intro i i₀ hm hii h100 _ _; omega
    | succ m ih =>
      intro i i₀ hm hii h100 hfree hbusy
      rw [findDupPath]
      by_cases heq : i = i₀
      · subst heq
        simp [hfree]
      · have hfs : fs (pathJoin dir (dupFileName base ext i)) = true :=
          hbusy i (le_refl _) (by omega)
        rw [hfs]
        simp only [if_true]
        have : ¬ (100 < i + 1) := by omega
        simp only [this, if_false, if_neg this]
        exact ih (i + 1) i₀ (by omega) (by omega) h100 hfree
          (fun j hj hj2 => hbusy j (by omega) hj2)
  intro i i₀ hii h100 hfree hbusy
  exact H (101 - i) i i₀ (le_refl _) hii h100 hfree hbusy

theorem findUniqueTargetPath_not_exists (fs : List Char → Bool)
    (dir base ext target q : List Char)
    (h : findUniqueTargetPath fs dir base ext target = some q) : fs q = false := by
  rw [findUniqueTargetPath] at h
  rcases hfs : fs target with _ | _
  · rw [hfs] at h
    simp at h
    rw [← h]
    exact hfs
  · rw [hfs] at h
    simp at h
    exact findDupPath_not_exists fs dir base ext 1 q h

theorem movieFileStep_move_not_exists (dict : List (List Char)) (useTmdb : Bool)
    (source : List Char) (fs : List Char → Bool) (env : MovieLookupEnv)
    (f p : List Char)
    (h : movieFileStep dict false useTmdb source fs env f = .move p) : fs p = false := by
  simp only [movieFileStep] at h
  by_cases hc : movieAlreadyOrganizedCheck dict source f = true
  · rw [if_pos hc] at h
    exact absurd h (by simp)
  · rw [if_neg hc] at h
    cases hres : resolveMovieIdentity useTmdb dict env (basenameP f) with
    | skippedLlmFailure =>
      rw [hres] at h
      exact absurd h (by simp)
    | resolved info b =>
      rw [hres] at h
      dsimp only at h
      by_cases hsan : movieSanitize (movieFolderName info) = []
      · rw [if_pos hsan] at h
        exact absurd h (by simp)
      · rw [if_neg hsan] at h
        by_cases hinpl : f =
            pathJoin (pathJoin source (movieSanitize (movieFolderName info)))
              (movieSanitize (movieFolderName info) ++ extnameP f)
        · rw [if_pos hinpl] at h
          exact absurd h (by simp)
        · rw [if_neg hinpl, if_neg (by simp : ¬ (false = true))] at h
          rcases hq : findUniqueTargetPath fs
              (pathJoin source (movieSanitize (movieFolderName info)))
              (basenameStripExtOf (movieSanitize (movieFolderName info) ++ extnameP f)
                (extnameP f))
              (extnameP f)
              (pathJoin (pathJoin source (movieSanitize (movieFolderName info)))
                (movieSanitize (movieFolderName info) ++ extnameP f)) with _ | q
          · rw [hq] at h
            exact absurd h (by simp)
          · rw [hq] at h
            have hqp : q = p := by simpa using h
            subst hqp
            exact findUniqueTargetPath_not_exists _ _ _ _ _ _ hq

/-- C3: collision handling.  A file whose exact target already exists is
probed against `_dup_1`, `_dup_2`, … with strictly increasing index; the first
non-existing probe is chosen; when the `_dup_` counter would exceed 100 the
file is skipped; and a chosen target — hence any performed move — never names
an existing file. -/
theorem collision_policy_dup_probing (fs : List Char → Bool)
    (dir base ext target : List Char) :
    (∀ q, findUniqueTargetPath fs dir base ext target = some q → fs q = false) ∧
    (fs target = false → findUniqueTargetPath fs dir base ext target = some target) ∧
    (fs target = true →
      (∀ j, 1 ≤ j → j ≤ 100 → fs (pathJoin dir (dupFileName base ext j)) = true) →
      findUniqueTargetPath fs dir base ext target = none) ∧
    (∀ i₀, fs target = true → 1 ≤ i₀ → i₀ ≤ 100 →
      fs (pathJoin dir (dupFileName base ext i₀)) = false →
      (∀ j, 1 ≤ j → j < i₀ → fs (pathJoin dir (dupFileName base ext j)) = true) →
      findUniqueTargetPath fs dir base ext target =
        some (pathJoin dir (dupFileName base ext i₀))) ∧
    (∀ dict useTmdb env f p source,
      movieFileStep dict false useTmdb source fs env f = .move p → fs p = false) := by
  refine ⟨fun q => findUniqueTargetPath_not_exists fs dir base ext target q,
    fun hfs => by rw [findUniqueTargetPath, hfs]; rfl,
    fun hfs hall => by
      rw [findUniqueTargetPath, hfs]
      simp only [if_true]
      exact findDupPath_all_exist fs dir base ext 1 (le_refl _) (by omega)
        (fun j hj hj2 => hall j hj hj2),
    fun i₀ hfs h1 h100 hfree hbusy => by
      rw [findUniqueTargetPath, hfs]
      simp only [if_true]
      exact findDupPath_first_free fs dir base ext 1 i₀ h1 h100 hfree
        (fun j hj hj2 => hbusy j hj hj2),
    fun dict useTmdb env f p source h =>
      movieFileStep_move_not_exists dict useTmdb source fs env f p h⟩

/-- Witness for `collision_policy_dup_probing`: with `a.mkv` and `a_dup_1.mkv`
existing, the probe settles on `a_dup_2.mkv`, which does not exist. -/
theorem collision_policy_dup_probing_witness :
    findUniqueTargetPath
      (fun p => p = "/d/a.mkv".data || p = "/d/a_dup_1.mkv".data)
      "/d".data "a".data ".mkv".data "/d/a.mkv".data =
      some (pathJoin "/d".data (dupFileName "a".data ".mkv".data 2)) := by
  have h := (collision_policy_dup_probing
    (fun p => p = "/d/a.mkv".data || p = "/d/a_dup_1.mkv".data)
    "/d".data "a".data ".mkv".data "/d/a.mkv".data).2.2.2.1
  exact h 2 (by decide) (by omega) (by omega) (by decide)
    (fun j hj hj2 => by
      have : j = 1 := by omega
      subst this
      decide)

/-- C4 counterexample: sanitization does not strip the banned characters (as
the spec words it) but replaces them with `'_'`: on the segment `"."` the
implementation yields `"_"` while the spec's strip-semantics yields the empty
string (which would make the file a hard error). -/
theorem sanitize_strip_counterexample :
    sanitizeName ".".data = "_".data ∧ movieSanitize ".".data = "_".data ∧
    sanitizeSpecStrip ".".data = [] ∧
    sanitizeName ".".data ≠ sanitizeSpecStrip ".".data := by
  refine ⟨by decide, by decide, by decide, by decide⟩

/-- C4 (amended): sanitization replaces each of `/ ? % * : | " < > .` with
`'_'` and trims whitespace (so no banned character survives); the
empty-result skip exists only in the movie organizer — a movie whose
sanitized folder name is empty is skipped with no move performed, while the
show and music organizers build the target path around the empty sanitized
segment (series folder, artist folder) and still move the file. -/
theorem sanitize_replace_and_empty_skip :
    (∀ s : List Char,
      sanitizeName s = jsTrim (s.map (fun c => if bannedChar c then '_' else c)) ∧
      movieSanitize s = jsTrim (s.map (fun c => if bannedChar c then '_' else c)) ∧
      ∀ c ∈ sanitizeName s, bannedChar c = false) ∧
    (∀ dict useTmdb (isDryRun : Bool) source fs env f info b,
      resolveMovieIdentity useTmdb dict env (basenameP f) = .resolved info b →
      movieSanitize (movieFolderName info) = [] →
      movieFileStep dict isDryRun useTmdb source fs env f = .skipAlreadyOrganized ∨
      movieFileStep dict isDryRun useTmdb source fs env f = .skipEmptyName) ∧
    (sanitizeName " ".data = [] ∧
     showSeriesFolderName
       { seriesTitle := " ".data, seriesYear := none, seasonNumber := 1,
         episodeNumber := 1, episodeTitle := none } = [] ∧
     showFileStep false "/s".data (fun _ => false)
       { seriesTitle := " ".data, seriesYear := none, seasonNumber := 1,
         episodeNumber := 1, episodeTitle := none } "/s/x.mkv".data =
       .move (showTargetPath "/s".data
         { seriesTitle := " ".data, seriesYear := none, seasonNumber := 1,
           episodeNumber := 1, episodeTitle := none } ".mkv".data)) ∧
    ((determineMusicPathComponents "/s/x.mp3".data
        { title := none, artist := none, albumArtist := some " ".data, album := none,
          year := none, trackNumber := none } "/d".data none none none).targetArtistFolder
        = [] ∧
     musicFileStep false "/d".data (fun _ => false)
       (determineMusicPathComponents "/s/x.mp3".data
         { title := none, artist := none, albumArtist := some " ".data, album := none,
           year := none, trackNumber := none } "/d".data none none none) "/s/x.mp3".data =
       .move (determineMusicPathComponents "/s/x.mp3".data
         { title := none, artist := none, albumArtist := some " ".data, album := none,
           year := none, trackNumber := none } "/d".data none none none).targetFullPath) := by
  refine ⟨?_, ?_, ⟨by decide, by decide, by decide⟩, ⟨by decide, by decide⟩⟩
  · intro s
    exact ⟨sanitizeName_eq_trim_replace s, rfl, sanitizeName_no_banned s⟩
  · intro dict useTmdb isDryRun source fs env f info b hres hsan
    by_cases hc : movieAlreadyOrganizedCheck dict source f
    · left
      rw [movieFileStep, if_pos hc]
    · right
      rw [movieFileStep, if_neg hc]
      simp only [hres, hsan, ne_eq, not_true_eq_false, if_true, if_pos rfl]

/-- Witness for `sanitize_replace_and_empty_skip`: a parsed title consisting of
one space sanitizes to the empty string and the file is skipped. -/
theorem sanitize_replace_and_empty_skip_witness :
    bannedChar 'b' = false ∧
    (movieFileStep [] false true "/s".data (fun _ => false)
        { videoMeta := none,
          tmdbSeed := some { title := " ".data, year := none, originalFilename := "x.mkv".data },
          llm := none, tmdbViaLlm := none } "/s/x.mkv".data = .skipAlreadyOrganized ∨
     movieFileStep [] false true "/s".data (fun _ => false)
        { videoMeta := none,
          tmdbSeed := some { title := " ".data, year := none, originalFilename := "x.mkv".data },
          llm := none, tmdbViaLlm := none } "/s/x.mkv".data = .skipEmptyName) := by
  refine ⟨(sanitize_replace_and_empty_skip.1 "ab".data).2.2 'b' (by decide), ?_⟩
  exact sanitize_replace_and_empty_skip.2.1 [] true false "/s".data (fun _ => false) _
    "/s/x.mkv".data
    { title := " ".data, year := none, originalFilename := "x.mkv".data } true
    (by decide) (by decide)

/-- C9: a release whose release-group primary type is "compilation"
(case-insensitively) or with a credited artist "Various Artists" is routed to
the artist folder `Various Artists` regardless of the track's own metadata,
and a known per-track artist different from "Various Artists" is inserted into
the track filename between the track number and the title. -/
theorem compilation_routes_various_artists (filePath : List Char)
    (metadata : MusicMeta) (dest : List Char) (rel : MBRelease)
    (track : Option MBTrack) (relArtist : Option (List Char))
    (hcomp : rel.releaseGroupPrimaryType.map toLowerList = some "compilation".data ∨
      (rel.artistCredit.getD []).any (fun n => toLowerList n = "various artists".data) = true) :
    (determineMusicPathComponents filePath metadata dest (some rel) track
        relArtist).targetArtistFolder = "Various Artists".data ∧
    (sanitizeName ((orStr ((track.bind (·.artistCredit)).map joinComma) metadata.artist).getD []) ≠ [] →
     toLowerList (sanitizeName
        ((orStr ((track.bind (·.artistCredit)).map joinComma) metadata.artist).getD [])) ≠
       "various artists".data →
     (determineMusicPathComponents filePath metadata dest (some rel) track
        relArtist).targetFileName =
       padStart2 ((orStr (track.bind (·.number)) (metadata.trackNumber.map intToDigits)).getD
           "00".data) ++
         " - ".data ++
         sanitizeName ((orStr ((track.bind (·.artistCredit)).map joinComma) metadata.artist).getD []) ++
         " - ".data ++
         sanitizeName ((orStr (track.map (·.title)) metadata.title).getD "Unknown Track".data) ++
         extnameP filePath) := by
  have hC : (decide (rel.releaseGroupPrimaryType.map toLowerList = some "compilation".data) ||
      (rel.artistCredit.getD []).any (fun n => decide (toLowerList n = "various artists".data))) =
        true := by
    rcases hcomp with h | h
    · simp [h]
    · simp only [Bool.or_eq_true]
      right
      simpa using h
  constructor
  · simp only [determineMusicPathComponents, hC]
    rw [if_pos trivial]
    decide
  · intro hne hvar
    simp only [determineMusicPathComponents, hC]
    simp only [ne_eq, Option.map_bind, Function.comp_def] at hne hvar
    simp [hne, hvar]

/-! ### Track-matching lemmas (`findMatchingTrackInRelease`) -/

theorem trackPass1_no_number_match (n : Int) (nst : Option (List Char)) :
    ∀ (tracks : List MBTrack), (∀ t ∈ tracks, mbTrackNum t ≠ some n) →
    ∀ best, trackPass1 n nst tracks best = .ok best := by
  intro tracks
  induction tracks with
  | nil => intro _ best; rfl
  | cons t rest ih =>
    intro h best
    have ht : mbTrackNum t ≠ some n := h t (by simp)
    rw [trackPass1, if_neg ht]
    exact ih (fun u hu => h u (by simp [hu])) best

theorem trackPass2_exact_found (v : List Char) :
    ∀ (tracks : List MBTrack), (∃ t ∈ tracks, normTitle t.title = v) →
    ∀ best, ∃ t, trackPass2 v tracks best = .error t ∧ normTitle t.title = v := by
  intro tracks
  induction tracks with
  | nil => intro h; simp at h
  | cons t rest ih =>
    intro h best
    by_cases he : normTitle t.title = v
    · refine ⟨t, ?_, he⟩
      simp only [trackPass2, if_pos he]
    · have h2 : ∃ u ∈ rest, normTitle u.title = v := by
        rcases h with ⟨u, hu, hv2⟩
        rcases List.mem_cons.mp hu with rfl | hu2
        · exact absurd hv2 he
        · exact ⟨u, hu2, hv2⟩
      by_cases hc : listContains (normTitle t.title) v = true
      · simp only [trackPass2, if_neg he, if_pos hc]
        exact ih h2 _
      · simp only [trackPass2, if_neg he, if_neg hc]
        exact ih h2 best

theorem trackPass2_eq_fold (v : List Char) :
    ∀ (tracks : List MBTrack), (∀ t ∈ tracks, normTitle t.title ≠ v) →
    ∀ best, trackPass2 v tracks best = .ok (tracks.foldl (trackPass2Step v) best) := by
  intro tracks
  induction tracks with
  | nil => intro _ best; rfl
  | cons t rest ih =>
    intro h best
    have he : normTitle t.title ≠ v := h t (by simp)
    have hrest : ∀ u ∈ rest, normTitle u.title ≠ v := fun u hu => h u (by simp [hu])
    rw [List.foldl_cons]
    by_cases hc : listContains (normTitle t.title) v = true
    · have hstep : trackPass2Step v best t =
          (match best with
           | none => some t
           | some b =>
             if (normTitle t.title).length < (normTitle b.title).length then some t
             else some b) := by
        simp only [trackPass2Step, if_pos hc]
      simp only [trackPass2, if_neg he, if_pos hc, hstep]
      exact ih hrest _
    · have hstep : trackPass2Step v best t = best := by
        simp only [trackPass2Step, if_neg hc]
      simp only [trackPass2, if_neg he, if_neg hc, hstep]
      exact ih hrest best

theorem trackPass2_fold_mem_contains (v : List Char) :
    ∀ (tracks : List MBTrack) (best : Option MBTrack) (r : MBTrack),
    tracks.foldl (trackPass2Step v) best = some r →
    (r ∈ tracks ∧ listContains (normTitle r.title) v = true) ∨ best = some r := by
  intro tracks
  induction tracks with
  | nil =>
    intro best r h
    rw [List.foldl_nil] at h
    right
    exact h
  | cons t rest ih =>
    intro best r h
    rw [List.foldl_cons] at h
    rcases ih (trackPass2Step v best t) r h with ⟨hm, hc⟩ | hstep
    · exact Or.inl ⟨by simp [hm], hc⟩
    · simp only [trackPass2Step] at hstep
      by_cases hc : listContains (normTitle t.title) v = true
      · rw [if_pos hc] at hstep
        cases best with
        | none =>
          simp at hstep
          subst hstep
          exact Or.inl ⟨by simp, hc⟩
        | some b =>
          dsimp only at hstep
          by_cases hl : (normTitle t.title).length < (normTitle b.title).length
          · rw [if_pos hl] at hstep
            simp at hstep
            subst hstep
            exact Or.inl ⟨by simp, hc⟩
          · rw [if_neg hl] at hstep
            exact Or.inr hstep
      · rw [if_neg hc] at hstep
        exact Or.inr hstep

theorem trackPass2_fold_some_of_some (v : List Char) :
    ∀ (tracks : List MBTrack) (b : MBTrack),
    ∃ r, tracks.foldl (trackPass2Step v) (some b) = some r := by
  intro tracks
  induction tracks with
  | nil => intro b; exact ⟨b, rfl⟩
  | cons t rest ih =>
    intro b
    rw [List.foldl_cons]
    simp only [trackPass2Step]
    by_cases hc : listContains (normTitle t.title) v = true
    · rw [if_pos hc]
      by_cases hl : (normTitle t.title).length < (normTitle b.title).length
      · rw [if_pos hl]; exact ih t
      · rw [if_neg hl]; exact ih b
    · rw [if_neg hc]; exact ih b

theorem trackPass2_fold_some_of_contains (v : List Char) :
    ∀ (tracks : List MBTrack) (best : Option MBTrack),
    (∃ t ∈ tracks, listContains (normTitle t.title) v = true) →
    ∃ r, tracks.foldl (trackPass2Step v) best = some r := by
  intro tracks
  induction tracks with
  | nil => intro best h; simp at h
  | cons t rest ih =>
    intro best h
    rw [List.foldl_cons]
    rcases h with ⟨u, hu, hc⟩
    rcases List.mem_cons.mp hu with rfl | hu2
    · have hb : ∃ b, trackPass2Step v best u = some b := by
        simp only [trackPass2Step]
        rw [if_pos hc]
        cases best with
        | none => exact ⟨u, rfl⟩
        | some b =>
          dsimp only
          by_cases hl : (normTitle u.title).length < (normTitle b.title).length
          · rw [if_pos hl]; exact ⟨u, rfl⟩
          · rw [if_neg hl]; exact ⟨b, rfl⟩
      rcases hb with ⟨b, hb⟩
      rw [hb]
      exact trackPass2_fold_some_of_some v rest b
    · exact ih (trackPass2Step v best t) ⟨u, hu2, hc⟩

theorem trackPass2_fold_minimal (v : List Char) :
    ∀ (tracks : List MBTrack) (best : Option MBTrack) (r : MBTrack),
    tracks.foldl (trackPass2Step v) best = some r →
    ∀ u, ((u ∈ tracks ∧ listContains (normTitle u.title) v = true) ∨ best = some u) →
      (normTitle r.title).length ≤ (normTitle u.title).length := by
  intro tracks
  induction tracks with
  | nil =>
    intro best r h u hu
    rw [List.foldl_nil] at h
    rcases hu with ⟨hm, _⟩ | hb
    · simp at hm
    · rw [h] at hb
      cases hb
      exact le_refl _
  | cons t rest ih =>
    intro best r h u hu
    rw [List.foldl_cons] at h
    have step_le : ∀ w, trackPass2Step v best t = some w →
        (∀ b0, best = some b0 → (normTitle w.title).length ≤ (normTitle b0.title).length) ∧
        (listContains (normTitle t.title) v = true →
          (normTitle w.title).length ≤ (normTitle t.title).length) := by
      intro w hw
      simp only [trackPass2Step] at hw
      by_cases hc : listContains (normTitle t.title) v = true
      · rw [if_pos hc] at hw
        cases best with
        | none =>
          simp at hw
          subst hw
          exact ⟨fun b0 hb0 => (nomatch hb0), fun _ => le_refl _⟩
        | some b =>
          dsimp only at hw
          by_cases hl : (normTitle t.title).length < (normTitle b.title).length
          · rw [if_pos hl] at hw
            simp at hw
            subst hw
            exact ⟨fun b0 hb0 => (by cases hb0; omega), fun _ => le_refl _⟩
          · rw [if_neg hl] at hw
            simp at hw
            subst hw
            exact ⟨fun b0 hb0 => (by cases hb0; exact le_refl _), fun _ => by omega⟩
      · rw [if_neg hc] at hw
        subst hw
        exact ⟨fun b0 hb0 => (by cases hb0; exact le_refl _), fun hcc => absurd hcc hc⟩
    rcases hu with ⟨hm, hc⟩ | hb
    · rcases List.mem_cons.mp hm with rfl | hm2
      · rcases hw : trackPass2Step v best u with _ | w
        · exfalso
          simp only [trackPass2Step] at hw
          rw [if_pos hc] at hw
          cases best with
          | none => simp at hw
          | some b =>
            dsimp only at hw
            by_cases hl : (normTitle u.title).length < (normTitle b.title).length
            · rw [if_pos hl] at hw; simp at hw
            · rw [if_neg hl] at hw; simp at hw
        · rw [hw] at h
          have hle := (step_le w hw).2 hc
          have := ih (some w) r h w (Or.inr rfl)
          omega
      · exact ih (trackPass2Step v best t) r h u (Or.inl ⟨hm2, hc⟩)
    · rcases hw : trackPass2Step v best t with _ | w
      · exfalso
        simp only [trackPass2Step] at hw
        by_cases hcc : listContains (normTitle t.title) v = true
        · rw [if_pos hcc] at hw
          cases best with
          | none => exact absurd hb (by simp)
          | some b =>
            dsimp only at hw
            by_cases hl : (normTitle t.title).length < (normTitle b.title).length
            · rw [if_pos hl] at hw; simp at hw
            · rw [if_neg hl] at hw; simp at hw
        · rw [if_neg hcc] at hw
          rw [hb] at hw
          cases hw
      · rw [hw] at h
        have hle := (step_le w hw).1 u hb
        have := ih (some w) r h w (Or.inr rfl)
        omega

theorem optTruthy_some_of_ne (l : List Char) (h : l ≠ []) : optTruthy (some l) = some l := by
  cases l with
  | nil => exact absurd rfl h
  | cons c r => rfl

/-- Under the hypotheses of the second pass (non-empty list, truthy search
title, no track-number match in the first pass), `findMatchingTrackInRelease`
reduces to the title-only pass. -/
theorem findMatching_reduces_to_pass2 (tracks : List MBTrack)
    (searchTitle : List Char) (searchNum : Option (List Char))
    (hne : tracks ≠ []) (hst : searchTitle ≠ []) (hv : normTitle searchTitle ≠ [])
    (hnonum : ∀ n, searchNum.bind jsParseInt = some n → ∀ t ∈ tracks, mbTrackNum t ≠ some n) :
    findMatchingTrackInRelease tracks (some searchTitle) searchNum =
      (match trackPass2 (normTitle searchTitle) tracks none with
       | .error t => some t
       | .ok b => b) := by
  have hnt : nstTruthy (some (normTitle searchTitle)) = true := by
    simpa [nstTruthy] using hv
  rw [findMatchingTrackInRelease, if_neg hne, optTruthy_some_of_ne searchTitle hst,
    if_neg (by simp)]
  dsimp only [Option.map_some']
  rcases hnum : searchNum.bind jsParseInt with _ | n
  · dsimp only
    rw [if_pos hnt]
    rfl
  · dsimp only
    rw [trackPass1_no_number_match n (some (normTitle searchTitle)) tracks (hnonum n hnum) none]
    dsimp only
    rw [if_pos hnt]
    rfl

/-- C8: two-pass track matching.  When no release track carries the searched
track number, an exact (case-insensitive, sanitized) title match is still
found by the title-only second pass; when only substring containment holds,
a containing track of minimal (sanitized) title length is returned. -/
theorem music_two_pass_matching (tracks : List MBTrack)
    (searchTitle : List Char) (searchNum : Option (List Char))
    (hne : tracks ≠ []) (hst : searchTitle ≠ []) (hv : normTitle searchTitle ≠ [])
    (hnonum : ∀ n, searchNum.bind jsParseInt = some n → ∀ t ∈ tracks, mbTrackNum t ≠ some n) :
    ((∃ t ∈ tracks, normTitle t.title = normTitle searchTitle) →
      ∃ t, findMatchingTrackInRelease tracks (some searchTitle) searchNum = some t ∧
        normTitle t.title = normTitle searchTitle) ∧
    ((∀ t ∈ tracks, normTitle t.title ≠ normTitle searchTitle) →
     (∃ t ∈ tracks, listContains (normTitle t.title) (normTitle searchTitle) = true) →
      ∃ t, findMatchingTrackInRelease tracks (some searchTitle) searchNum = some t ∧
        t ∈ tracks ∧ listContains (normTitle t.title) (normTitle searchTitle) = true ∧
        ∀ u ∈ tracks, listContains (normTitle u.title) (normTitle searchTitle) = true →
          (normTitle t.title).length ≤ (normTitle u.title).length) := by
  rw [findMatching_reduces_to_pass2 tracks searchTitle searchNum hne hst hv hnonum]
  constructor
  · intro hex
    rcases trackPass2_exact_found (normTitle searchTitle) tracks hex none with ⟨t, ht, htv⟩
    rw [ht]
    exact ⟨t, rfl, htv⟩
  · intro hnoex hcont
    rw [trackPass2_eq_fold (normTitle searchTitle) tracks hnoex none]
    rcases trackPass2_fold_some_of_contains (normTitle searchTitle) tracks none hcont with ⟨r, hr⟩
    rw [hr]
    refine ⟨r, rfl, ?_, ?_, ?_⟩
    · rcases trackPass2_fold_mem_contains (normTitle searchTitle) tracks none r hr with ⟨hm, _⟩ | hb
      · exact hm
      · cases hb
    · rcases trackPass2_fold_mem_contains (normTitle searchTitle) tracks none r hr with ⟨_, hc⟩ | hb
      · exact hc
      · cases hb
    · intro u hu huc
      exact trackPass2_fold_minimal (normTitle searchTitle) tracks none r hr u (Or.inl ⟨hu, huc⟩)

/-- Witness for `music_two_pass_matching`: the searched number 9 matches no
track, yet the exact title "Hook" is found by the second pass. -/
theorem music_two_pass_matching_witness :
    ∃ t, findMatchingTrackInRelease
        [{ title := "Intro".data, number := some "1".data, artistCredit := none },
         { title := "Hook".data, number := some "2".data, artistCredit := none }]
        (some "hook".data) (some "9".data) = some t ∧
      normTitle t.title = normTitle "hook".data := by
  exact (music_two_pass_matching
    [{ title := "Intro".data, number := some "1".data, artistCredit := none },
     { title := "Hook".data, number := some "2".data, artistCredit := none }]
    "hook".data (some "9".data) (by decide) (by decide) (by decide)
    (by
      intro n hn t ht
      simp only [Option.some_bind] at hn
      have h9 : jsParseInt "9".data = some 9 := by decide
      rw [h9] at hn
      obtain rfl : (9 : Int) = n := Option.some_inj.mp hn
      fin_cases ht <;> decide)).1
    ⟨{ title := "Hook".data, number := some "2".data, artistCredit := none }, by decide, by decide⟩

/-! ### Already-organized short-circuits -/

theorem movieFileStep_skip_of_in_place (dict : List (List Char))
    (isDryRun useTmdb : Bool) (source : List Char) (fs : List Char → Bool)
    (env : MovieLookupEnv) (f : List Char) (info : ParsedMovieInfo) (b : Bool)
    (hres : resolveMovieIdentity useTmdb dict env (basenameP f) = .resolved info b)
    (htgt : f = movieTargetPath source info (extnameP f)) :
    movieFileStep dict isDryRun useTmdb source fs env f = .skipAlreadyOrganized ∨
    movieFileStep dict isDryRun useTmdb source fs env f = .skipEmptyName ∨
    movieFileStep dict isDryRun useTmdb source fs env f = .skipAlreadyInPlace := by
  by_cases hc : movieAlreadyOrganizedCheck dict source f = true
  · left
    rw [movieFileStep, if_pos hc]
  · rw [movieFileStep, if_neg hc]
    dsimp only
    rw [hres]
    dsimp only
    by_cases hsan : movieSanitize (movieFolderName info) = []
    · right; left
      rw [if_pos hsan]
    · right; right
      simp only [movieTargetPath] at htgt
      rw [if_neg hsan, if_pos htgt]

theorem movieRunMoves_nil (dict : List (List Char)) (isDryRun useTmdb : Bool)
    (source : List Char) (fs : List Char → Bool) (envOf : List Char → MovieLookupEnv)
    (files : List (List Char))
    (h : ∀ f ∈ files, ∃ info b,
      resolveMovieIdentity useTmdb dict (envOf f) (basenameP f) = .resolved info b ∧
      f = movieTargetPath source info (extnameP f)) :
    movieRunMoves dict isDryRun useTmdb source fs envOf files = [] := by
  induction files with
  | nil => rfl
  | cons f rest ih =>
    rcases h f (by simp) with ⟨info, b, hres, htgt⟩
    have hskip := movieFileStep_skip_of_in_place dict isDryRun useTmdb source fs (envOf f) f
      info b hres htgt
    have hrest := ih (fun g hg => h g (by simp [hg]))
    rw [movieRunMoves, List.filterMap_cons]
    rcases hskip with hs | hs | hs <;>
      · rw [hs]
        exact hrest

/-- C5: a library already in canonical layout produces zero moves.  A movie
run over files each already at their computed canonical target performs no
move; a show or music file already at its computed target is skipped by the
already-organized short-circuits before any directory creation or rename. -/
theorem already_organized_second_run_no_moves :
    (∀ dict (isDryRun useTmdb : Bool) source (fs : List Char → Bool)
        (envOf : List Char → MovieLookupEnv) files,
      (∀ f ∈ files, ∃ info b,
        resolveMovieIdentity useTmdb dict (envOf f) (basenameP f) = .resolved info b ∧
        f = movieTargetPath source info (extnameP f)) →
      movieRunMoves dict isDryRun useTmdb source fs envOf files = []) ∧
    (∀ (isDryRun : Bool) source (fs : List Char → Bool) (fin : ShowFinals) f,
      f = showTargetPath source fin (extnameP f) →
      showFileStep isDryRun source fs fin f = .skipPerfectlyOrganized ∨
      showFileStep isDryRun source fs fin f = .skipAlreadyInPlace) ∧
    (∀ (isDryRun : Bool) source (fs : List Char → Bool) (comps : MusicPathComponents) f,
      f = comps.targetFullPath →
      musicFileStep isDryRun source fs comps f = .skipPerfectlyOrganized ∨
      musicFileStep isDryRun source fs comps f = .skipAlreadyInPlace) := by
  refine ⟨movieRunMoves_nil, ?_, ?_⟩
  · intro isDryRun source fs fin f htgt
    simp only [showTargetPath] at htgt
    by_cases h1 : dirnameP (dirnameP f) ≠ source ∧
        basenameP (dirnameP (dirnameP f)) = showSeriesFolderName fin ∧
        basenameP (dirnameP f) = showSeasonFolderName fin ∧
        basenameP f = showTargetFileName fin (extnameP f)
    · left
      rw [showFileStep, if_pos h1]
    · right
      rw [showFileStep, if_neg h1, if_pos htgt]
  · intro isDryRun source fs comps f htgt
    by_cases h1 : dirnameP (dirnameP (dirnameP f)) = source ∧
        basenameP (dirnameP (dirnameP f)) = comps.targetArtistFolder ∧
        basenameP (dirnameP f) = comps.targetAlbumFolder ∧
        comps.fileBasename = comps.targetFileName
    · left
      rw [musicFileStep, if_pos h1]
    · right
      rw [musicFileStep, if_neg h1, if_pos htgt]

/-- Witness for `already_organized_second_run_no_moves` on a one-file movie
library, a canonically placed episode and a canonically placed track. -/
theorem already_organized_second_run_no_moves_witness :
    movieRunMoves [] false true "/m".data (fun _ => false)
      (fun _ =>
        { videoMeta := none,
          tmdbSeed := some
            { title := "A".data, year := some "2001".data,
              originalFilename := "A (2001).mkv".data },
          llm := none, tmdbViaLlm := none })
      ["/m/A (2001)/A (2001).mkv".data] = [] ∧
    (showFileStep false "/t".data (fun _ => false)
        { seriesTitle := "A".data, seriesYear := none, seasonNumber := 1,
          episodeNumber := 2, episodeTitle := none }
        "/t/A/Season 01/A - S01E02.mkv".data = .skipPerfectlyOrganized ∨
     showFileStep false "/t".data (fun _ => false)
        { seriesTitle := "A".data, seriesYear := none, seasonNumber := 1,
          episodeNumber := 2, episodeTitle := none }
        "/t/A/Season 01/A - S01E02.mkv".data = .skipAlreadyInPlace) ∧
    (musicFileStep false "/u".data (fun _ => false)
        { targetArtistFolder := "Ar".data, targetAlbumFolder := "Al".data,
          targetAlbumPath := "/u/Ar/Al".data, targetFileName := "01 - T.mp3".data,
          targetFullPath := "/u/Ar/Al/01 - T.mp3".data,
          originalFilePath := "/u/Ar/Al/01 - T.mp3".data,
          fileBasename := "01 - T.mp3".data, fileExt := ".mp3".data }
        "/u/Ar/Al/01 - T.mp3".data = .skipPerfectlyOrganized ∨
     musicFileStep false "/u".data (fun _ => false)
        { targetArtistFolder := "Ar".data, targetAlbumFolder := "Al".data,
          targetAlbumPath := "/u/Ar/Al".data, targetFileName := "01 - T.mp3".data,
          targetFullPath := "/u/Ar/Al/01 - T.mp3".data,
          originalFilePath := "/u/Ar/Al/01 - T.mp3".data,
          fileBasename := "01 - T.mp3".data, fileExt := ".mp3".data }
        "/u/Ar/Al/01 - T.mp3".data = .skipAlreadyInPlace) := by
  refine ⟨?_, ?_, ?_⟩
  · exact already_organized_second_run_no_moves.1 [] false true "/m".data (fun _ => false) _ _
      (fun f hf => by
        rw [List.mem_singleton] at hf
        subst hf
        exact ⟨{ title := "A".data, year := some "2001".data,
                 originalFilename := "A (2001).mkv".data }, true, by decide, by decide⟩)
  · exact already_organized_second_run_no_moves.2.1 false "/t".data (fun _ => false) _ _
      (by decide)
  · exact already_organized_second_run_no_moves.2.2 false "/u".data (fun _ => false) _ _
      (by decide)

/-! ### Movie filename parser: the parenthesized-year pattern and the last-year
scan -/

theorem parenGroupAt_length (s : List Char) (p : Nat) (d : List Char)
    (h : parenGroupAt s p = some d) : p + 6 ≤ s.length := by
  by_contra hlt
  rw [parenGroupAt, if_neg hlt] at h
  cases h

theorem pat1FindAux_first (s : List Char) (p : Nat) (d : List Char)
    (hpg : parenGroupAt s p = some d) :
    ∀ fuel q, q ≤ p → p < q + fuel →
    (∀ r, q ≤ r → r < p → parenGroupAt s r = none) →
    pat1FindAux s fuel q = some (p, d) := by
  have hlen := parenGroupAt_length s p d hpg
  intro fuel
  induction fuel with
  | zero => intro q hq hlt _; omega
  | succ fuel ih =>
    intro q hq hlt hfirst
    rw [pat1FindAux]
    rw [if_pos (by omega)]
    by_cases heq : q = p
    · subst heq
      rw [hpg]
    · rw [hfirst q (le_refl _) (by omega)]
      exact ih (q + 1) (by omega) (by omega) (fun r hr hr2 => hfirst r (by omega) hr2)

/-- C10: pattern 1 of `parseMovieFilename`.  Whenever the cleaned name carries
a four-digit parenthesized group at an index `p ≥ 1` (anywhere in the name,
with no plausibility check on the digits) and no such group occurs earlier,
the parser returns the trimmed text before that first group as the title and
the group's digits as the year, discarding everything after the group; no
other year candidate is considered. -/
theorem paren_year_first_group_wins (dict : List (List Char))
    (filename : List Char) (p : Nat) (d : List Char)
    (h1 : parenGroupAt (cleanMovieName dict filename) p = some d) (hp : 1 ≤ p)
    (hfirst : ∀ r, 1 ≤ r → r < p → parenGroupAt (cleanMovieName dict filename) r = none) :
    parseMovieFilename dict filename =
      { title := jsTrim ((cleanMovieName dict filename).take p), year := some d,
        originalFilename := filename } := by
  have hlen := parenGroupAt_length _ _ _ h1
  have hfind : pat1Find (cleanMovieName dict filename) = some (p, d) := by
    rw [pat1Find]
    exact pat1FindAux_first _ p d h1 _ 1 hp (by omega) hfirst
  simp only [parseMovieFilename]
  rw [hfind]

/-- Witness for `paren_year_first_group_wins`: the group sits mid-name, its
digits `0000` are no plausible year, and the text after it is discarded. -/
theorem paren_year_first_group_wins_witness :
    parseMovieFilename [] "A.(0000).Z.mkv".data =
      { title := "A".data, year := some "0000".data,
        originalFilename := "A.(0000).Z.mkv".data } := by
  have h := paren_year_first_group_wins [] "A.(0000).Z.mkv".data 2 "0000".data
    (by decide) (by decide)
    (fun r h1 h2 => by
      have : r = 1 := by omega
      subst this
      decide)
  rw [h]
  decide

/-- C2 counterexample: on `Movie.Title.2001.Remastered.2020.mkv` the parser
does pick the last year candidate `2020`, but the title is everything before
that occurrence — `Movie Title 2001 Remastered` — not `Movie Title`. -/
theorem last_year_title_counterexample :
    (parseMovieFilename [] "Movie.Title.2001.Remastered.2020.mkv".data).year =
      some "2020".data ∧
    (parseMovieFilename [] "Movie.Title.2001.Remastered.2020.mkv".data).title =
      "Movie Title 2001 Remastered".data ∧
    (parseMovieFilename [] "Movie.Title.2001.Remastered.2020.mkv".data).title ≠
      "Movie Title".data := by
  refine ⟨by decide, by decide, by decide⟩

/-- C2 (amended): among the standalone year candidates found by the scan, the
last occurrence wins, and the text before it — with trailing separators
trimmed — becomes the title; on the concrete example this yields year `2020`
and title `Movie Title 2001 Remastered`. -/
theorem last_year_candidate_wins :
    (parseMovieFilename [] "Movie.Title.2001.Remastered.2020.mkv".data =
      { title := "Movie Title 2001 Remastered".data, year := some "2020".data,
        originalFilename := "Movie.Title.2001.Remastered.2020.mkv".data }) ∧
    (∀ dict filename idx y,
      pat1Find (cleanMovieName dict filename) = none →
      (movieYearCandidates (cleanMovieName dict filename)).getLast? = some (idx, y) →
      jsTrim (dropTrailingDotWs ((cleanMovieName dict filename).take idx)) ≠ [] →
      parseMovieFilename dict filename =
        { title := jsTrim (dropTrailingDotWs ((cleanMovieName dict filename).take idx)),
          year := some y, originalFilename := filename }) := by
  constructor
  · decide
  · intro dict filename idx y hpat hlast hne
    simp only [parseMovieFilename]
    rw [hpat, hlast]
    dsimp only
    rw [if_pos hne]

/-- Witness for `last_year_candidate_wins`: the general clause applied to the
concrete example (candidate at index 27 with digits `2020`). -/
theorem last_year_candidate_wins_witness :
    parseMovieFilename [] "Movie.Title.2001.Remastered.2020.mkv".data =
      { title := jsTrim (dropTrailingDotWs
          ((cleanMovieName [] "Movie.Title.2001.Remastered.2020.mkv".data).take 27)),
        year := some "2020".data,
        originalFilename := "Movie.Title.2001.Remastered.2020.mkv".data } :=
  last_year_candidate_wins.2 [] "Movie.Title.2001.Remastered.2020.mkv".data 27 "2020".data
    (by decide) (by decide) (by decide)

/-! ### LLM-failure skip (movie pipeline) -/

/-- C1: when the authoritative (TMDB) lookup fails and the LLM correction
itself fails, the movie pipeline skips the file: the identity resolution
yields the skip outcome — in particular no parsed-filename identity is
substituted — and the per-file step performs no move and no dry-run plan. -/
theorem movie_llm_failure_skips_file (dict : List (List Char)) (env : MovieLookupEnv)
    (fileBasename : List Char)
    (htmdb : env.tmdbSeed = none) (hllm : env.llm = none) :
    resolveMovieIdentity true dict env fileBasename = .skippedLlmFailure ∧
    (∀ info b, resolveMovieIdentity true dict env fileBasename ≠ .resolved info b) ∧
    (∀ (isDryRun : Bool) source (fs : List Char → Bool) f,
      movieFileStep dict isDryRun true source fs env f = .skipAlreadyOrganized ∨
      movieFileStep dict isDryRun true source fs env f = .skipLlmFailure) := by
  have hres : resolveMovieIdentity true dict env fileBasename = .skippedLlmFailure := by
    rw [resolveMovieIdentity, if_pos rfl, htmdb]
    dsimp only
    rw [hllm]
  refine ⟨hres, (fun info b h => by rw [hres] at h; cases h), ?_⟩
  intro isDryRun source fs f
  by_cases hc : movieAlreadyOrganizedCheck dict source f = true
  · left
    rw [movieFileStep, if_pos hc]
  · right
    rw [movieFileStep, if_neg hc]
    dsimp only
    have hres2 : resolveMovieIdentity true dict env (basenameP f) = .skippedLlmFailure := by
      rw [resolveMovieIdentity, if_pos rfl, htmdb]
      dsimp only
      rw [hllm]
    rw [hres2]

/-- Witness for `movie_llm_failure_skips_file`. -/
theorem movie_llm_failure_skips_file_witness :
    resolveMovieIdentity true []
      { videoMeta := none, tmdbSeed := none, llm := none, tmdbViaLlm := none }
      "Obscure.Movie.2003.mkv".data = .skippedLlmFailure ∧
    (movieFileStep [] false true "/m".data (fun _ => false)
        { videoMeta := none, tmdbSeed := none, llm := none, tmdbViaLlm := none }
        "/m/Obscure.Movie.2003.mkv".data = .skipAlreadyOrganized ∨
     movieFileStep [] false true "/m".data (fun _ => false)
        { videoMeta := none, tmdbSeed := none, llm := none, tmdbViaLlm := none }
        "/m/Obscure.Movie.2003.mkv".data = .skipLlmFailure) := by
  have h := movie_llm_failure_skips_file []
    { videoMeta := none, tmdbSeed := none, llm := none, tmdbViaLlm := none }
    "Obscure.Movie.2003.mkv".data rfl rfl
  exact ⟨h.1, h.2.2 false "/m".data (fun _ => false) "/m/Obscure.Movie.2003.mkv".data⟩

/-- Witness for `compilation_routes_various_artists`: a compilation release with
a per-track artist `AC DC` lands in `Various Artists` with the artist spliced
into the filename. -/
theorem compilation_routes_various_artists_witness :
    (determineMusicPathComponents "/m/x.mp3".data
        { title := some "T".data, artist := some "AC DC".data, albumArtist := none,
          album := none, year := none, trackNumber := none } "/m".data
        (some { title := "Comp".data, date := none,
                releaseGroupPrimaryType := some "Compilation".data, artistCredit := none })
        (some { title := "Song".data, number := some "3".data, artistCredit := none })
        none).targetArtistFolder = "Various Artists".data ∧
    (determineMusicPathComponents "/m/x.mp3".data
        { title := some "T".data, artist := some "AC DC".data, albumArtist := none,
          album := none, year := none, trackNumber := none } "/m".data
        (some { title := "Comp".data, date := none,
                releaseGroupPrimaryType := some "Compilation".data, artistCredit := none })
        (some { title := "Song".data, number := some "3".data, artistCredit := none })
        none).targetFileName = "03 - AC DC - Song.mp3".data := by
  have h := compilation_routes_various_artists "/m/x.mp3".data
    { title := some "T".data, artist := some "AC DC".data, albumArtist := none,
      album := none, year := none, trackNumber := none } "/m".data
    { title := "Comp".data, date := none,
      releaseGroupPrimaryType := some "Compilation".data, artistCredit := none }
    (some { title := "Song".data, number := some "3".data, artistCredit := none })
    none (by left; decide)
  refine ⟨h.1, ?_⟩
  rw [h.2 (by decide) (by decide)]
  decide


/-! ### Regex-engine soundness: watched captures are digit strings -/

theorem reRun_zero (r : RE) (s : List Char) (caps : Caps)
    (k : List Char → Caps → Option (List Char × Caps)) : reRun 0 r s caps k = none := rfl

theorem reRun_eps (f : Nat) (s : List Char) (caps : Caps)
    (k : List Char → Caps → Option (List Char × Caps)) :
    reRun (f + 1) .eps s caps k = k s caps := rfl

theorem reRun_eos (f : Nat) (s : List Char) (caps : Caps)
    (k : List Char → Caps → Option (List Char × Caps)) :
    reRun (f + 1) .eos s caps k = (if s = [] then k s caps else none) := rfl

theorem reRun_cls_nil (f : Nat) (cc : CC) (caps : Caps)
    (k : List Char → Caps → Option (List Char × Caps)) :
    reRun (f + 1) (.cls cc) [] caps k = none := rfl

theorem reRun_cls_cons (f : Nat) (cc : CC) (c : Char) (rest : List Char) (caps : Caps)
    (k : List Char → Caps → Option (List Char × Caps)) :
    reRun (f + 1) (.cls cc) (c :: rest) caps k =
      (if cc.eval c then k rest caps else none) := rfl

theorem reRun_cat (f : Nat) (a b : RE) (s : List Char) (caps : Caps)
    (k : List Char → Caps → Option (List Char × Caps)) :
    reRun (f + 1) (.cat a b) s caps k =
      reRun f a s caps (fun s1 c1 => reRun f b s1 c1 k) := rfl

theorem reRun_alt (f : Nat) (a b : RE) (s : List Char) (caps : Caps)
    (k : List Char → Caps → Option (List Char × Caps)) :
    reRun (f + 1) (.alt a b) s caps k =
      orO (reRun f a s caps k) (reRun f b s caps k) := rfl

theorem reRun_starL (f : Nat) (a : RE) (s : List Char) (caps : Caps)
    (k : List Char → Caps → Option (List Char × Caps)) :
    reRun (f + 1) (.starL a) s caps k =
      orO (k s caps)
        (reRun f a s caps (fun s1 c1 =>
          if s1.length < s.length then reRun f (.starL a) s1 c1 k else none)) := rfl

theorem reRun_starG (f : Nat) (a : RE) (s : List Char) (caps : Caps)
    (k : List Char → Caps → Option (List Char × Caps)) :
    reRun (f + 1) (.starG a) s caps k =
      orO
        (reRun f a s caps (fun s1 c1 =>
          if s1.length < s.length then reRun f (.starG a) s1 c1 k else none))
        (k s caps) := rfl

theorem reRun_opt (f : Nat) (a : RE) (s : List Char) (caps : Caps)
    (k : List Char → Caps → Option (List Char × Caps)) :
    reRun (f + 1) (.opt a) s caps k =
      orO (reRun f a s caps k) (k s caps) := rfl

theorem reRun_rep (f : Nat) (a : RE) (mn mx : Nat) (s : List Char) (caps : Caps)
    (k : List Char → Caps → Option (List Char × Caps)) :
    reRun (f + 1) (.rep a mn mx) s caps k =
      (if mn ≠ 0 then
        reRun f a s caps (fun s1 c1 => reRun f (.rep a (mn - 1) (mx - 1)) s1 c1 k)
      else if mx = 0 then k s caps
      else orO (reRun f a s caps (fun s1 c1 => reRun f (.rep a 0 (mx - 1)) s1 c1 k))
        (k s caps)) := rfl

theorem reRun_grp (f : Nat) (i : Nat) (a : RE) (s : List Char) (caps : Caps)
    (k : List Char → Caps → Option (List Char × Caps)) :
    reRun (f + 1) (.grp i a) s caps k =
      reRun f a s caps
        (fun s1 c1 => k s1 ((i, s.take (s.length - s1.length)) :: c1)) := rfl

theorem orO_eq_some {α : Type} (a b : Option α) (x : α) (h : orO a b = some x) :
    a = some x ∨ (a = none ∧ b = some x) := by
  cases a with
  | some y => exact Or.inl h
  | none => exact Or.inr ⟨rfl, h⟩

/-- A `REclsOnly p` expression records no capture and consumes only characters
satisfying `p`: the continuation is invoked on a suffix whose removed prefix is
all-`p`, with the capture list unchanged. -/
theorem reRun_consume (p : Char → Bool) :
    ∀ (fuel : Nat) (r : RE), REclsOnly p r →
      ∀ (s : List Char) (caps : Caps)
        (k : List Char → Caps → Option (List Char × Caps)) (res : List Char × Caps),
        reRun fuel r s caps k = some res →
        ∃ t s1, s = t ++ s1 ∧ t.all p = true ∧ k s1 caps = some res := by
  intro fuel
  induction fuel with
  | zero =>
    intro r _ s caps k res h
    rw [reRun_zero] at h
    exact Option.noConfusion h
  | succ f ih =>
    intro r hcls s caps k res h
    cases r with
    | eps =>
      rw [reRun_eps] at h
      exact ⟨[], s, rfl, rfl, h⟩
    | eos =>
      rw [reRun_eos] at h
      by_cases hs : s = []
      · rw [if_pos hs] at h
        exact ⟨[], s, rfl, rfl, h⟩
      · rw [if_neg hs] at h
        exact Option.noConfusion h
    | cls cc =>
      simp only [REclsOnly] at hcls
      cases s with
      | nil =>
        rw [reRun_cls_nil] at h
        exact Option.noConfusion h
      | cons c rest =>
        rw [reRun_cls_cons] at h
        by_cases hc : cc.eval c = true
        · rw [if_pos hc] at h
          refine ⟨[c], rest, rfl, ?_, h⟩
          simp [hcls c hc]
        · rw [if_neg hc] at h
          exact Option.noConfusion h
    | cat a b =>
      rw [reRun_cat] at h
      simp only [REclsOnly] at hcls
      obtain ⟨t1, s1, hs1, hall1, hk1⟩ := ih a hcls.1 s caps _ res h
      obtain ⟨t2, s2, hs2, hall2, hk2⟩ := ih b hcls.2 s1 caps k res hk1
      exact ⟨t1 ++ t2, s2, by rw [hs1, hs2, List.append_assoc],
        by simp [List.all_append, hall1, hall2], hk2⟩
    | alt a b =>
      rw [reRun_alt] at h
      simp only [REclsOnly] at hcls
      rcases orO_eq_some _ _ _ h with h1 | ⟨_, h2⟩
      · exact ih a hcls.1 s caps k res h1
      · exact ih b hcls.2 s caps k res h2
    | starL a =>
      have hcls' : REclsOnly p a := hcls
      rw [reRun_starL] at h
      rcases orO_eq_some _ _ _ h with h1 | ⟨_, h2⟩
      · exact ⟨[], s, rfl, rfl, h1⟩
      · obtain ⟨t1, s1, hs1, hall1, hk1⟩ := ih a hcls' s caps _ res h2
        by_cases hlen : s1.length < s.length
        · rw [if_pos hlen] at hk1
          obtain ⟨t2, s2, hs2, hall2, hk2⟩ := ih (.starL a) hcls s1 caps k res hk1
          exact ⟨t1 ++ t2, s2, by rw [hs1, hs2, List.append_assoc],
            by simp [List.all_append, hall1, hall2], hk2⟩
        · rw [if_neg hlen] at hk1
          exact Option.noConfusion hk1
    | starG a =>
      have hcls' : REclsOnly p a := hcls
      rw [reRun_starG] at h
      rcases orO_eq_some _ _ _ h with h1 | ⟨_, h2⟩
      · obtain ⟨t1, s1, hs1, hall1, hk1⟩ := ih a hcls' s caps _ res h1
        by_cases hlen : s1.length < s.length
        · rw [if_pos hlen] at hk1
          obtain ⟨t2, s2, hs2, hall2, hk2⟩ := ih (.starG a) hcls s1 caps k res hk1
          exact ⟨t1 ++ t2, s2, by rw [hs1, hs2, List.append_assoc],
            by simp [List.all_append, hall1, hall2], hk2⟩
        · rw [if_neg hlen] at hk1
          exact Option.noConfusion hk1
      · exact ⟨[], s, rfl, rfl, h2⟩
    | opt a =>
      have hcls' : REclsOnly p a := hcls
      rw [reRun_opt] at h
      rcases orO_eq_some _ _ _ h with h1 | ⟨_, h2⟩
      · exact ih a hcls' s caps k res h1
      · exact ⟨[], s, rfl, rfl, h2⟩
    | rep a mn mx =>
      have hcls' : REclsOnly p a := hcls
      rw [reRun_rep] at h
      by_cases hmn : mn ≠ 0
      · rw [if_pos hmn] at h
        obtain ⟨t1, s1, hs1, hall1, hk1⟩ := ih a hcls' s caps _ res h
        obtain ⟨t2, s2, hs2, hall2, hk2⟩ :=
          ih (.rep a (mn - 1) (mx - 1)) hcls' s1 caps k res hk1
        exact ⟨t1 ++ t2, s2, by rw [hs1, hs2, List.append_assoc],
          by simp [List.all_append, hall1, hall2], hk2⟩
      · rw [if_neg hmn] at h
        by_cases hmx : mx = 0
        · rw [if_pos hmx] at h
          exact ⟨[], s, rfl, rfl, h⟩
        · rw [if_neg hmx] at h
          rcases orO_eq_some _ _ _ h with h1 | ⟨_, h2⟩
          · obtain ⟨t1, s1, hs1, hall1, hk1⟩ := ih a hcls' s caps _ res h1
            obtain ⟨t2, s2, hs2, hall2, hk2⟩ :=
              ih (.rep a 0 (mx - 1)) hcls' s1 caps k res hk1
            exact ⟨t1 ++ t2, s2, by rw [hs1, hs2, List.append_assoc],
              by simp [List.all_append, hall1, hall2], hk2⟩
          · exact ⟨[], s, rfl, rfl, h2⟩
    | grp i a =>
      simp only [REclsOnly] at hcls

theorem REdigitsOnly_clsOnly : ∀ r : RE, REdigitsOnly r = true → REclsOnly Char.isDigit r := by
  intro r
  induction r with
  | eps => intro _; trivial
  | eos => intro _; trivial
  | cls cc =>
    intro h
    simp only [REdigitsOnly, decide_eq_true_eq] at h
    subst h
    intro c hc
    exact hc
  | cat a b iha ihb =>
    intro h
    simp only [REdigitsOnly, Bool.and_eq_true] at h
    exact ⟨iha h.1, ihb h.2⟩
  | alt a b iha ihb =>
    intro h
    simp only [REdigitsOnly, Bool.and_eq_true] at h
    exact ⟨iha h.1, ihb h.2⟩
  | starL a iha => intro h; exact iha h
  | starG a iha => intro h; exact iha h
  | opt a iha => intro h; exact iha h
  | rep a mn mx iha => intro h; exact iha h
  | grp i a iha => intro h; exact Bool.noConfusion h

theorem WatchedGood_nil (w : Nat → Bool) : WatchedGood w [] := by
  intro pr hpr
  cases hpr

theorem WatchedGood_cons (w : Nat → Bool) (caps : Caps) (i : Nat) (v : List Char)
    (h : WatchedGood w caps) (hv : w i = true → v.all Char.isDigit = true) :
    WatchedGood w ((i, v) :: caps) := by
  intro pr hpr hw
  rcases List.mem_cons.mp hpr with rfl | hm
  · exact hv hw
  · exact h pr hm hw

theorem capLookup_cons (pr : Nat × List Char) (r : Caps) (i : Nat) :
    capLookup (pr :: r) i = if pr.1 = i then some pr.2 else capLookup r i := rfl

theorem capLookup_digits (w : Nat → Bool) (caps : Caps) (h : WatchedGood w caps)
    (j : Nat) (hw : w j = true) (v : List Char) (hl : capLookup caps j = some v) :
    v.all Char.isDigit = true := by
  induction caps with
  | nil => exact Option.noConfusion hl
  | cons pr rest ih =>
    rw [capLookup_cons] at hl
    by_cases he : pr.1 = j
    · rw [if_pos he] at hl
      obtain rfl := Option.some_inj.mp hl
      exact h pr (List.mem_cons_self pr rest) (by rw [he]; exact hw)
    · rw [if_neg he] at hl
      exact ih (fun q hq => h q (List.mem_cons_of_mem pr hq)) hl

/-- Every group the check `REdigitGroupsOk w` watches records a digit string:
some suffix and a `WatchedGood` capture list reach the continuation. -/
theorem reRun_capsGood (w : Nat → Bool) :
    ∀ (fuel : Nat) (r : RE), REdigitGroupsOk w r = true →
      ∀ (s : List Char) (caps : Caps)
        (k : List Char → Caps → Option (List Char × Caps)) (res : List Char × Caps),
        WatchedGood w caps →
        reRun fuel r s caps k = some res →
        ∃ s1 caps1, WatchedGood w caps1 ∧ k s1 caps1 = some res := by
  intro fuel
  induction fuel with
  | zero =>
    intro r _ s caps k res _ h
    rw [reRun_zero] at h
    exact Option.noConfusion h
  | succ f ih =>
    intro r hok s caps k res hgood h
    cases r with
    | eps =>
      rw [reRun_eps] at h
      exact ⟨s, caps, hgood, h⟩
    | eos =>
      rw [reRun_eos] at h
      by_cases hs : s = []
      · rw [if_pos hs] at h
        exact ⟨s, caps, hgood, h⟩
      · rw [if_neg hs] at h
        exact Option.noConfusion h
    | cls cc =>
      cases s with
      | nil =>
        rw [reRun_cls_nil] at h
        exact Option.noConfusion h
      | cons c rest =>
        rw [reRun_cls_cons] at h
        by_cases hc : cc.eval c = true
        · rw [if_pos hc] at h
          exact ⟨rest, caps, hgood, h⟩
        · rw [if_neg hc] at h
          exact Option.noConfusion h
    | cat a b =>
      rw [reRun_cat] at h
      simp only [REdigitGroupsOk, Bool.and_eq_true] at hok
      obtain ⟨s1, caps1, good1, h1⟩ := ih a hok.1 s caps _ res hgood h
      exact ih b hok.2 s1 caps1 k res good1 h1
    | alt a b =>
      rw [reRun_alt] at h
      simp only [REdigitGroupsOk, Bool.and_eq_true] at hok
      rcases orO_eq_some _ _ _ h with h1 | ⟨_, h2⟩
      · exact ih a hok.1 s caps k res hgood h1
      · exact ih b hok.2 s caps k res hgood h2
    | starL a =>
      have hok' : REdigitGroupsOk w a = true := hok
      rw [reRun_starL] at h
      rcases orO_eq_some _ _ _ h with h1 | ⟨_, h2⟩
      · exact ⟨s, caps, hgood, h1⟩
      · obtain ⟨s1, caps1, good1, hk1⟩ := ih a hok' s caps _ res hgood h2
        by_cases hlen : s1.length < s.length
        · rw [if_pos hlen] at hk1
          exact ih (.starL a) hok s1 caps1 k res good1 hk1
        · rw [if_neg hlen] at hk1
          exact Option.noConfusion hk1
    | starG a =>
      have hok' : REdigitGroupsOk w a = true := hok
      rw [reRun_starG] at h
      rcases orO_eq_some _ _ _ h with h1 | ⟨_, h2⟩
      · obtain ⟨s1, caps1, good1, hk1⟩ := ih a hok' s caps _ res hgood h1
        by_cases hlen : s1.length < s.length
        · rw [if_pos hlen] at hk1
          exact ih (.starG a) hok s1 caps1 k res good1 hk1
        · rw [if_neg hlen] at hk1
          exact Option.noConfusion hk1
      · exact ⟨s, caps, hgood, h2⟩
    | opt a =>
      have hok' : REdigitGroupsOk w a = true := hok
      rw [reRun_opt] at h
      rcases orO_eq_some _ _ _ h with h1 | ⟨_, h2⟩
      · exact ih a hok' s caps k res hgood h1
      · exact ⟨s, caps, hgood, h2⟩
    | rep a mn mx =>
      have hok' : REdigitGroupsOk w a = true := hok
      rw [reRun_rep] at h
      by_cases hmn : mn ≠ 0
      · rw [if_pos hmn] at h
        obtain ⟨s1, caps1, good1, hk1⟩ := ih a hok' s caps _ res hgood h
        exact ih (.rep a (mn - 1) (mx - 1)) hok' s1 caps1 k res good1 hk1
      · rw [if_neg hmn] at h
        by_cases hmx : mx = 0
        · rw [if_pos hmx] at h
          exact ⟨s, caps, hgood, h⟩
        · rw [if_neg hmx] at h
          rcases orO_eq_some _ _ _ h with h1 | ⟨_, h2⟩
          · obtain ⟨s1, caps1, good1, hk1⟩ := ih a hok' s caps _ res hgood h1
            exact ih (.rep a 0 (mx - 1)) hok' s1 caps1 k res good1 hk1
          · exact ⟨s, caps, hgood, h2⟩
    | grp i a =>
      rw [reRun_grp] at h
      simp only [REdigitGroupsOk, Bool.and_eq_true] at hok
      by_cases hw : w i = true
      · have hdig : REdigitsOnly a = true := by
          have h1 := hok.1
          simp [hw] at h1
          exact h1
        obtain ⟨t, s1, hs, hall, hk⟩ :=
          reRun_consume Char.isDigit f a (REdigitsOnly_clsOnly a hdig) s caps _ res h
        have htake : s.take (s.length - s1.length) = t := by
          rw [hs, List.length_append, Nat.add_sub_cancel, List.take_left]
        rw [htake] at hk
        exact ⟨s1, (i, t) :: caps, WatchedGood_cons w caps i t hgood (fun _ => hall), hk⟩
      · obtain ⟨s1, caps1, good1, hk⟩ := ih a hok.2 s caps _ res hgood h
        refine ⟨s1, (i, s.take (s.length - s1.length)) :: caps1, ?_, hk⟩
        exact WatchedGood_cons w caps1 i _ good1 (fun hwi => absurd hwi hw)

/-- Captures of a successful anchored match are `WatchedGood`. -/
theorem reMatch_watchedGood (w : Nat → Bool) (fuel : Nat) (re : RE) (s : List Char)
    (m : List Char × Caps) (hok : REdigitGroupsOk w re = true)
    (h : reMatch fuel re s = some m) : WatchedGood w m.2 := by
  obtain ⟨s1, caps1, good1, hk⟩ :=
    reRun_capsGood w fuel re hok s [] _ m (WatchedGood_nil w) h
  obtain rfl := Option.some_inj.mp hk
  exact good1

theorem digit_not_ws (c : Char) (h : c.isDigit = true) : wsChar c = false := by
  by_cases h1 : c = ' '
  · subst h1; exact absurd h (by decide)
  by_cases h2 : c = '\t'
  · subst h2; exact absurd h (by decide)
  by_cases h3 : c = '\n'
  · subst h3; exact absurd h (by decide)
  by_cases h4 : c = '\r'
  · subst h4; exact absurd h (by decide)
  by_cases h5 : c = '\x0b'
  · subst h5; exact absurd h (by decide)
  by_cases h6 : c = '\x0c'
  · subst h6; exact absurd h (by decide)
  simp [wsChar, h1, h2, h3, h4, h5, h6]

theorem takeWhile_of_all (p : Char → Bool) (l : List Char) (h : l.all p = true) :
    l.takeWhile p = l := by
  induction l with
  | nil => rfl
  | cons c r ih =>
    simp only [List.all_cons, Bool.and_eq_true] at h
    simp [List.takeWhile_cons, h.1, ih h.2]

/-- `parseInt` on a nonempty all-digit string returns the (nonnegative) value. -/
theorem jsParseInt_digits (cs : List Char) (hne : cs ≠ [])
    (hdig : cs.all Char.isDigit = true) :
    jsParseInt cs = some ((digitsVal cs : Nat) : Int) := by
  cases cs with
  | nil => exact absurd rfl hne
  | cons c r =>
    have hall : (c :: r).all Char.isDigit = true := hdig
    simp only [List.all_cons, Bool.and_eq_true] at hdig
    have hws : wsChar c = false := digit_not_ws c hdig.1
    have htrim : jsTrimStart (c :: r) = c :: r := by
      rw [jsTrimStart, List.dropWhile_cons]
      simp [hws]
    have hcm : c ≠ '-' := by
      intro he; rw [he] at hdig; exact absurd hdig.1 (by decide)
    have hcp : c ≠ '+' := by
      intro he; rw [he] at hdig; exact absurd hdig.1 (by decide)
    simp only [jsParseInt]
    rw [htrim]
    dsimp only
    rw [if_neg hcm, if_neg hcp, takeWhile_of_all _ _ hall,
      if_neg (by simp : ¬ (c :: r = []))]

theorem numFromCap_nonneg (w : Nat → Bool) (caps : Caps) (hgood : WatchedGood w caps)
    (j : Nat) (hw : w j = true) (n : Int) (h : numFromCap caps j = some n) : 0 ≤ n := by
  simp only [numFromCap] at h
  rcases hl : capLookup caps j with _ | cs
  · rw [hl] at h
    exact Option.noConfusion h
  · rw [hl] at h
    dsimp only at h
    by_cases hcs : cs = []
    · rw [if_pos hcs] at h
      exact Option.noConfusion h
    · rw [if_neg hcs] at h
      have hdig := capLookup_digits w caps hgood j hw cs hl
      rw [jsParseInt_digits cs hcs hdig] at h
      obtain rfl := Option.some_inj.mp h
      exact Int.natCast_nonneg _

theorem showMatchFields_nonneg (m : List Char × Caps) (sIdx : Option Nat) (eIdx tIdx : Nat)
    (hgood : WatchedGood watched234 m.2)
    (hs : ∀ j, sIdx = some j → watched234 j = true)
    (he : watched234 eIdx = true) :
    (∀ n, (showMatchFields m sIdx eIdx tIdx).seasonNumber = some n → 0 ≤ n) ∧
    (∀ n, (showMatchFields m sIdx eIdx tIdx).episodeNumber = some n → 0 ≤ n) := by
  constructor
  · intro n h
    simp only [showMatchFields] at h
    rcases sIdx with _ | j
    · exact Option.noConfusion h
    · exact numFromCap_nonneg watched234 m.2 hgood j (hs j rfl) n h
  · intro n h
    simp only [showMatchFields] at h
    exact numFromCap_nonneg watched234 m.2 hgood eIdx he n h

theorem showFields_nonneg (cn : List Char) :
    (∀ n, (showFields cn).seasonNumber = some n → 0 ≤ n) ∧
    (∀ n, (showFields cn).episodeNumber = some n → 0 ≤ n) := by
  have hok1 : REdigitGroupsOk watched234 showPat1 = true := by decide
  have hok2 : REdigitGroupsOk watched234 showPat2 = true := by decide
  have hok3 : REdigitGroupsOk watched234 showPat3 = true := by decide
  simp only [showFields]
  rcases hm1 : reMatch (showFuel cn) showPat1 cn with _ | m1
  · rcases hm2 : reMatch (showFuel cn) showPat2 cn with _ | m2
    · rcases hm3 : reMatch (showFuel cn) showPat3 cn with _ | m3
      · constructor <;> intro n h <;> exact Option.noConfusion h
      · exact showMatchFields_nonneg m3 none 2 1
          (reMatch_watchedGood watched234 _ showPat3 cn m3 hok3 hm3)
          (fun j hj => Option.noConfusion hj) (by decide)
    · exact showMatchFields_nonneg m2 (some 2) 3 1
        (reMatch_watchedGood watched234 _ showPat2 cn m2 hok2 hm2)
        (fun j hj => by cases hj; decide) (by decide)
  · exact showMatchFields_nonneg m1 (some 2) 3 1
      (reMatch_watchedGood watched234 _ showPat1 cn m1 hok1 hm1)
      (fun j hj => by cases hj; decide) (by decide)

/-! ### The `ParsedShowInfo` number invariant -/

/-- C6 counterexample: `Show.S01E00.mkv` parses with `episodeNumber = 0`, so
the claimed invariant "episodeNumber present → ≥ 1" fails (`parseInt` is
applied to the raw `E00` capture with no lower bound). -/
theorem show_episode_zero_counterexample :
    (parseShowFilename [] "Show.S01E00.mkv".data).episodeNumber = some 0 ∧
    ¬ (1 ≤ (0 : Int)) := by
  constructor
  · decide
  · decide

/-- C6 (amended): for every wordlist and filename, a present `seasonNumber` is
≥ 0 and a present `episodeNumber` is ≥ 0 (the season half of the claimed
invariant holds; the episode half holds only with the weakened bound). -/
theorem show_parse_numbers_nonneg (dict : List (List Char)) (filename : List Char) :
    (∀ n, (parseShowFilename dict filename).seasonNumber = some n → 0 ≤ n) ∧
    (∀ n, (parseShowFilename dict filename).episodeNumber = some n → 0 ≤ n) := by
  have key : ∀ flds : ShowMatchFields,
      (∀ n, flds.seasonNumber = some n → 0 ≤ n) →
      (∀ n, flds.episodeNumber = some n → 0 ≤ n) →
      ∀ st : Option (List Char),
        (∀ n, (if flds.seasonNumber = none ∧ flds.episodeNumber ≠ none ∧ st ≠ none
                then some (1 : Int) else flds.seasonNumber) = some n → 0 ≤ n) ∧
        (∀ n, flds.episodeNumber = some n → 0 ≤ n) := by
    intro flds h1 h2 st
    constructor
    · intro n h
      by_cases hc : flds.seasonNumber = none ∧ flds.episodeNumber ≠ none ∧ st ≠ none
      · rw [if_pos hc] at h
        obtain rfl := Option.some_inj.mp h
        decide
      · rw [if_neg hc] at h
        exact h1 n h
    · exact h2
  simp only [parseShowFilename]
  exact key _ (showFields_nonneg _).1 (showFields_nonneg _).2 _

theorem show_parse_numbers_nonneg_witness :
    (0 : Int) ≤ 1 ∧ (0 : Int) ≤ 5 :=
  ⟨(show_parse_numbers_nonneg [] "Show.S01E05.mkv".data).1 1 (by decide),
   (show_parse_numbers_nonneg [] "Show.S01E05.mkv".data).2 5 (by decide)⟩

/-! ### Episode-title truncation at quality tags -/

theorem cutFold_le_acc (r : List Char) :
    ∀ (tags : List (List Char)) (acc : Nat),
      tags.foldl (fun acc tag =>
        match idxOfSub (toLowerList r) (toLowerList tag) with
        | some i => min acc i
        | none => acc) acc ≤ acc := by
  intro tags
  induction tags with
  | nil => intro acc; exact Nat.le_refl acc
  | cons t rest ih =>
    intro acc
    simp only [List.foldl_cons]
    rcases hidx : idxOfSub (toLowerList r) (toLowerList t) with _ | i
    · exact ih acc
    · exact Nat.le_trans (ih (min acc i)) (Nat.min_le_left acc i)

theorem cutFold_le_found (r : List Char) :
    ∀ (tags : List (List Char)) (acc : Nat) (tag : List Char), tag ∈ tags →
      ∀ i, idxOfSub (toLowerList r) (toLowerList tag) = some i →
        tags.foldl (fun acc tag =>
          match idxOfSub (toLowerList r) (toLowerList tag) with
          | some i => min acc i
          | none => acc) acc ≤ i := by
  intro tags
  induction tags with
  | nil => intro acc tag htag; cases htag
  | cons t rest ih =>
    intro acc tag htag i hidx
    simp only [List.foldl_cons]
    rcases List.mem_cons.mp htag with rfl | hm
    · rw [hidx]
      exact Nat.le_trans (cutFold_le_acc r rest _) (Nat.min_le_right acc i)
    · exact ih _ tag hm i hidx

theorem cutFold_mem (r : List Char) :
    ∀ (tags : List (List Char)) (acc : Nat),
      tags.foldl (fun acc tag =>
        match idxOfSub (toLowerList r) (toLowerList tag) with
        | some i => min acc i
        | none => acc) acc = acc ∨
      ∃ tag ∈ tags, idxOfSub (toLowerList r) (toLowerList tag) =
        some (tags.foldl (fun acc tag =>
          match idxOfSub (toLowerList r) (toLowerList tag) with
          | some i => min acc i
          | none => acc) acc) := by
  intro tags
  induction tags with
  | nil => intro acc; exact Or.inl rfl
  | cons t rest ih =>
    intro acc
    simp only [List.foldl_cons]
    rcases hidx : idxOfSub (toLowerList r) (toLowerList t) with _ | i
    · rcases ih acc with h | ⟨tag, htag, hfound⟩
      · exact Or.inl h
      · exact Or.inr ⟨tag, List.mem_cons_of_mem t htag, hfound⟩
    · rcases ih (min acc i) with h | ⟨tag, htag, hfound⟩
      · rcases Nat.le_total acc i with hle | hle
        · exact Or.inl (h.trans (Nat.min_eq_left hle))
        · refine Or.inr ⟨t, List.mem_cons_self t rest, ?_⟩
          rw [hidx]
          exact congrArg some (h.trans (Nat.min_eq_right hle)).symm
      · exact Or.inr ⟨tag, List.mem_cons_of_mem t htag, hfound⟩

theorem extractEpisodeTitle_ne_nil (r t : List Char)
    (h : extractEpisodeTitle r = some t) : t ≠ [] := by
  simp only [extractEpisodeTitle] at h
  split at h
  next hpos => exact Option.noConfusion h
  next hneg =>
    obtain rfl := Option.some_inj.mp h
    exact hneg

/-- C7: `Breaking.Bad.S01E01.Pilot.1080p.BluRay.mkv` parses to series
"Breaking Bad", S1E1, episode title "Pilot" (quality tags excluded); and in
general the cutoff used for the episode title is at most the remainder's
length, is a lower bound of every (case-insensitive) quality-tag occurrence,
is itself either the remainder's length or some tag's position, and a returned
episode title is never the empty string. -/
theorem episode_title_truncation :
    (parseShowFilename [] "Breaking.Bad.S01E01.Pilot.1080p.BluRay.mkv".data =
      { seriesTitle := some "Breaking Bad".data
        seasonNumber := some 1
        episodeNumber := some 1
        episodeTitle := some "Pilot".data
        year := none
        originalFilename := "Breaking.Bad.S01E01.Pilot.1080p.BluRay.mkv".data }) ∧
    (∀ remainder : List Char,
      cutOffIndex remainder ≤ remainder.length ∧
      (∀ tag ∈ qualityTags, ∀ i,
        idxOfSub (toLowerList remainder) (toLowerList tag) = some i →
        cutOffIndex remainder ≤ i) ∧
      (cutOffIndex remainder = remainder.length ∨
        ∃ tag ∈ qualityTags,
          idxOfSub (toLowerList remainder) (toLowerList tag) =
            some (cutOffIndex remainder))) ∧
    (∀ remainder t, extractEpisodeTitle remainder = some t → t ≠ []) := by
  refine ⟨by decide, fun remainder => ⟨?_, ?_, ?_⟩, extractEpisodeTitle_ne_nil⟩
  · exact cutFold_le_acc remainder qualityTags remainder.length
  · intro tag htag i hidx
    exact cutFold_le_found remainder qualityTags remainder.length tag htag i hidx
  · exact cutFold_mem remainder qualityTags remainder.length

theorem episode_title_truncation_witness :
    cutOffIndex "Pilot 1080p BluRay".data ≤ 6 ∧ "Pilot".data ≠ [] :=
  ⟨(episode_title_truncation.2.1 "Pilot 1080p BluRay".data).2.1 "1080p".data (by decide) 6
      (by decide),
   episode_title_truncation.2.2 "Pilot 1080p BluRay".data "Pilot".data (by decide)⟩
end JellyfinOrganizer
